import Mathlib

/-!
Shallow embedding of `src/parse/log_parser.py` (Fastly log parser).

The Python module is built around `re` patterns.  We embed the exact regular
expressions used by the source as an AST (`RE`) together with a backtracking
matcher (`reMatch`) that mirrors CPython's `re` semantics for the constructs
those patterns use: single-character classes, counted greedy and non-greedy
repetition over a character class, literals, alternation (leftmost preferred),
capturing groups, lookahead, word boundary, and end anchor.  `re.match` is
`reMatchTop` (anchored prefix match), `re.search` is `reSearch` (leftmost
position wins).  Strings are modelled as `List Char`; character classes are
the ASCII readings of `\d`, `\s`, `\S`, `[A-Z]`, `[^"]`, `\w` (the log lines
handled by the program are ASCII).
-/

namespace FastlyLog

/-- Python `\d` (ASCII reading). -/
def isDigitC (c : Char) : Bool := '0' ≤ c && c ≤ '9'

/-- Python `\s` (ASCII reading: space, tab, newline, carriage return,
vertical tab, form feed). -/
def isSpaceC (c : Char) : Bool :=
  c = ' ' || c = '\t' || c = '\n' || c = '\r' || c = '\x0b' || c = '\x0c'

/-- Python `\S`. -/
def isNonSpaceC (c : Char) : Bool := !isSpaceC c

/-- Python `[A-Z]`. -/
def isUpperC (c : Char) : Bool := 'A' ≤ c && c ≤ 'Z'

/-- Python `[^"]`. -/
def notQuoteC (c : Char) : Bool := c ≠ '"'

/-- Python `\w` (ASCII reading), used by the `\b` word-boundary assertion. -/
def isWordC (c : Char) : Bool := c.isAlphanum || c = '_'

def isWordOpt : Option Char → Bool
  | some c => isWordC c
  | none => false

/-- Captured groups of a match, keyed by 0-based group index
(group `i` here is group `i+1` in Python's 1-based `m.group`). -/
abbrev Caps := List (Nat × String)

def capGet : Caps → Nat → Option String
  | [], _ => none
  | (j, s) :: rest, i => if j = i then some s else capGet rest i

/-- Regular-expression AST covering exactly the constructs appearing in the
patterns of `log_parser.py`.  Repetition is only ever over a single-character
class in those patterns, which `rep` reflects. -/
inductive RE where
  | epsilon
  | cls (p : Char → Bool)
  | str (s : List Char)
  | cat (r1 r2 : RE)
  | alt (r1 r2 : RE)
  | rep (p : Char → Bool) (lo : Nat) (hi : Option Nat) (greedy : Bool)
  | group (idx : Nat) (r : RE)
  | lookahead (r : RE)
  | wordB
  | eos

/-- Length of the maximal prefix whose characters all satisfy `p`. -/
def countRun (p : Char → Bool) : List Char → Nat
  | [] => 0
  | c :: cs => if p c then countRun p cs + 1 else 0

/-- The character that precedes the remaining text after also consuming
`xs`, when `prev` preceded `xs`. -/
def lastPrev (prev : Option Char) : List Char → Option Char
  | [] => prev
  | c :: cs => lastPrev (some c) cs

/-- The character preceding the position reached after consuming `i`
characters of `rest`, given that `prev` precedes `rest`. -/
def prevAfter (rest : List Char) (prev : Option Char) (i : Nat) : Option Char :=
  lastPrev prev (rest.take i)

/-- The counts a repetition tries, in order: greedy repetitions try the
longest count first, non-greedy the shortest first (CPython `re`). -/
def repCounts (lo maxC : Nat) (greedy : Bool) : List Nat :=
  (List.range (maxC - lo + 1)).map (fun j => if greedy then maxC - j else lo + j)

/-- Backtracking matcher in continuation-passing style; mirrors CPython `re`
for the AST above.  `rest` is the remaining input, `prev` the character just
before it (for `\b`), `caps` the captures recorded on the current path, and
`k` the continuation for the remainder of the pattern (so alternatives and
repetition counts backtrack through the whole rest of the pattern, as in
CPython). -/
def reMatch : RE → List Char → Option Char → Caps →
    (List Char → Option Char → Caps → Option Caps) → Option Caps
  | .epsilon, rest, prev, caps, k => k rest prev caps
  | .cls p, rest, prev, caps, k =>
    match rest with
    | [] => none
    | c :: rs => if p c then k rs (some c) caps else none
  | .str s, rest, prev, caps, k =>
    if rest.take s.length = s then
      k (rest.drop s.length) (prevAfter rest prev s.length) caps
    else none
  | .cat r1 r2, rest, prev, caps, k =>
    reMatch r1 rest prev caps (fun rs pv cs => reMatch r2 rs pv cs k)
  | .alt r1 r2, rest, prev, caps, k =>
    match reMatch r1 rest prev caps k with
    | some res => some res
    | none => reMatch r2 rest prev caps k
  | .rep p lo hi greedy, rest, prev, caps, k =>
    let run := countRun p rest
    let maxC := match hi with | none => run | some h => min run h
    if lo ≤ maxC then
      (repCounts lo maxC greedy).findSome?
        (fun i => k (rest.drop i) (prevAfter rest prev i) caps)
    else none
  | .group i r, rest, prev, caps, k =>
    reMatch r rest prev caps (fun rs pv cs =>
      k rs pv ((i, String.mk (rest.take (rest.length - rs.length))) :: cs))
  | .lookahead r, rest, prev, caps, k =>
    match reMatch r rest prev caps (fun _ _ cs => some cs) with
    | some cs => k rest prev cs
    | none => none
  | .wordB, rest, prev, caps, k =>
    if isWordOpt prev != isWordOpt rest.head? then k rest prev caps else none
  | .eos, rest, prev, caps, k =>
    match rest with
    | [] => k rest prev caps
    | _ :: _ => none

/-- `pattern.match(line)`: anchored prefix match at position 0. -/
def reMatchTop (r : RE) (s : List Char) : Option Caps :=
  reMatch r s none [] (fun _ _ cs => some cs)

/-- `re.search` scanning loop: try each start position left to right. -/
def searchFrom (r : RE) : List Char → Option Char → Option Caps
  | [], prev => reMatch r [] prev [] (fun _ _ cs => some cs)
  | c :: rs, prev =>
    match reMatch r (c :: rs) prev [] (fun _ _ cs => some cs) with
    | some cs => some cs
    | none => searchFrom r rs (some c)

/-- `re.search(pattern, line)`. -/
def reSearch (r : RE) (s : List Char) : Option Caps := searchFrom r s none

/-- Sequencing of pattern pieces (juxtaposition in the regex literal). -/
def reSeq (rs : List RE) : RE := rs.foldr RE.cat RE.epsilon

/-- `X+` for a character class. -/
def plusC (p : Char → Bool) : RE := .rep p 1 none true

/-- `X*` for a character class. -/
def starC (p : Char → Bool) : RE := .rep p 0 none true

/-- `X{n}` for a character class. -/
def repN (p : Char → Bool) (n : Nat) : RE := .rep p n (some n) true

/-- `X+?` for a character class. -/
def plusLazy (p : Char → Bool) : RE := .rep p 1 none false

/-! The concrete patterns of `log_parser.py`, transcribed piece by piece. -/

/-- `\d{4}-\d{2}-\d{2}T\d{2}:\d{2}:\d{2}Z` (the timestamp literal that
occurs both in `LOG_PATTERN` and in the fallback timestamp search). -/
def isoTimestampRE : RE := reSeq [
  repN isDigitC 4, .str ['-'], repN isDigitC 2, .str ['-'], repN isDigitC 2,
  .str ['T'], repN isDigitC 2, .str [':'], repN isDigitC 2, .str [':'],
  repN isDigitC 2, .str ['Z']]

/-- `LOG_PATTERN` from `log_parser.py` lines 20–35, group by group:
`<(\d+)>` `(\d{4}-…Z)` `\s+(\S+)` `\s+(\S+)\[(\d+)\]:` `\s+(\S+)`
`\s+"([^"]*)"` `\s+"([^"]*)"` `\s+([^"]+?)(?=\s+")` `\s+"([A-Z]+)\s+([^"]+)"`
`\s+(\d+)` `\s+(\d+)` `\s+"([^"]*)"` `\s+"([^"]*)"` `\s+(\S+)`. -/
def LOG_PATTERN : RE := reSeq [
  .str ['<'], .group 0 (plusC isDigitC), .str ['>'],
  .group 1 isoTimestampRE,
  plusC isSpaceC, .group 2 (plusC isNonSpaceC),
  plusC isSpaceC, .group 3 (plusC isNonSpaceC),
  .str ['['], .group 4 (plusC isDigitC), .str [']', ':'],
  plusC isSpaceC, .group 5 (plusC isNonSpaceC),
  plusC isSpaceC, .str ['"'], .group 6 (starC notQuoteC), .str ['"'],
  plusC isSpaceC, .str ['"'], .group 7 (starC notQuoteC), .str ['"'],
  plusC isSpaceC, .group 8 (plusLazy notQuoteC),
  .lookahead (reSeq [plusC isSpaceC, .str ['"']]),
  plusC isSpaceC, .str ['"'], .group 9 (plusC isUpperC),
  plusC isSpaceC, .group 10 (plusC notQuoteC), .str ['"'],
  plusC isSpaceC, .group 11 (plusC isDigitC),
  plusC isSpaceC, .group 12 (plusC isDigitC),
  plusC isSpaceC, .str ['"'], .group 13 (starC notQuoteC), .str ['"'],
  plusC isSpaceC, .str ['"'], .group 14 (starC notQuoteC), .str ['"'],
  plusC isSpaceC, .group 15 (plusC isNonSpaceC)]

/-- Fallback `re.search(r'(\d{4}-\d{2}-\d{2}T\d{2}:\d{2}:\d{2}Z)', line)`. -/
def TS_RE : RE := .group 0 isoTimestampRE

/-- Fallback `re.search(r'<(\d+)>', line)`. -/
def PRIO_RE : RE := reSeq [.str ['<'], .group 0 (plusC isDigitC), .str ['>']]

/-- Fallback `re.search(r'\b(\d{1,3}\.\d{1,3}\.\d{1,3}\.\d{1,3})\b', line)`. -/
def IP_RE : RE := reSeq [
  .wordB,
  .group 0 (reSeq [
    .rep isDigitC 1 (some 3) true, .str ['.'],
    .rep isDigitC 1 (some 3) true, .str ['.'],
    .rep isDigitC 1 (some 3) true, .str ['.'],
    .rep isDigitC 1 (some 3) true]),
  .wordB]

/-- Fallback `re.search(r'"([A-Z]+)\s+([^"]+)"', line)`. -/
def HTTP_RE : RE := reSeq [
  .str ['"'], .group 0 (plusC isUpperC), plusC isSpaceC,
  .group 1 (plusC notQuoteC), .str ['"']]

/-- Fallback `re.search(r'\s(\d{3})\s', line)`. -/
def STATUS_RE : RE := reSeq [.cls isSpaceC, .group 0 (repN isDigitC 3), .cls isSpaceC]

/-- Fallback `re.search(r'\s(\d{3})\s+(\d+)\s', line)`. -/
def SIZE_RE : RE := reSeq [
  .cls isSpaceC, .group 0 (repN isDigitC 3), plusC isSpaceC,
  .group 1 (plusC isDigitC), .cls isSpaceC]

/-- Fallback `re.search(r'"([^"]*Mozilla[^"]*)"', line)`. -/
def UA1_RE : RE := reSeq [
  .str ['"'],
  .group 0 (reSeq [starC notQuoteC, .str "Mozilla".toList, starC notQuoteC]),
  .str ['"']]

/-- Fallback `re.search(r'"([^"]{20,})"', line)`. -/
def UA2_RE : RE := reSeq [.str ['"'], .group 0 (.rep notQuoteC 20 none true), .str ['"']]

/-- Fallback `re.search(r'\s(hit|miss|pass|error|synth)\s*$', line)`.
The line searched is already stripped, so Python's `$` (end of string or
just before a trailing newline) coincides with end of string. -/
def CACHE_RE : RE := reSeq [
  .cls isSpaceC,
  .group 0 (.alt (.str "hit".toList) (.alt (.str "miss".toList)
    (.alt (.str "pass".toList) (.alt (.str "error".toList) (.str "synth".toList))))),
  starC isSpaceC, .eos]

/-- Fallback `re.search(r'cache-([^\s]+)', line)`. -/
def SERVER_RE : RE := reSeq [.str "cache-".toList, .group 0 (plusC isNonSpaceC)]

/-- Fallback `re.search(r'(\S+)\[(\d+)\]:', line)`. -/
def PROCESS_RE : RE := reSeq [
  .group 0 (plusC isNonSpaceC), .str ['['], .group 1 (plusC isDigitC), .str [']', ':']]

/-! ### Python string / numeric primitives used by the parser -/

/-- Python `str.strip()` on the characters of a line (ASCII whitespace). -/
def pyStripList (cs : List Char) : List Char :=
  ((cs.dropWhile isSpaceC).reverse.dropWhile isSpaceC).reverse

/-- `s.split(sep, 1)`: the part before the first occurrence of `sep`,
and — when `sep` occurs — the remainder after it. -/
def splitFirst (sep : Char) : List Char → List Char × Option (List Char)
  | [] => ([], none)
  | c :: rest =>
    if c = sep then ([], some rest)
    else
      let (a, b) := splitFirst sep rest
      (c :: a, b)

/-- `s.split(sep)` (all occurrences), accumulator form. -/
def splitAllAux (sep : Char) : List Char → List Char → List (List Char)
  | [], acc => [acc.reverse]
  | c :: cs, acc =>
    if c = sep then acc.reverse :: splitAllAux sep cs []
    else splitAllAux sep cs (c :: acc)

def splitAll (sep : Char) (cs : List Char) : List (List Char) := splitAllAux sep cs []

/-- Nonempty all-digit strings parsed as a number (helper for `pyInt?`). -/
def pyDigits? (ds : List Char) : Option Nat :=
  if ds ≠ [] && ds.all isDigitC then
    some (ds.foldl (fun a c => a * 10 + (c.toNat - 48)) 0)
  else none

/-- Python `int(s)` for a string argument, as an `Option`: `none` models the
`ValueError` raised on text that is not an optionally signed decimal numeral
surrounded by optional whitespace.  (CPython additionally allows underscore
digit separators; no string reaching `int` in this program contains one —
they all come from `\d+`/`\d{3}` captures.) -/
def pyInt? (s : String) : Option Int :=
  match pyStripList s.toList with
  | '+' :: ds => (pyDigits? ds).map Int.ofNat
  | '-' :: ds => (pyDigits? ds).map (fun n => -(n : Int))
  | ds => (pyDigits? ds).map Int.ofNat

/-- `safe_int` from `log_parser.py` lines 38–43 with the default
`default=None`, specialised to the string-or-`None` arguments it receives:
falsy input (`None` or `""`) yields the default, and a `ValueError` from
`int` is caught and also yields the default. -/
def safe_int (v : Option String) : Option Int :=
  match v with
  | none => none
  | some s => if s = "" then none else pyInt? s

/-- `safe_get` from `log_parser.py` lines 45–50 with `default=None`: group
`index` of the match if it participated and is truthy (non-empty), else
`None`.  (The `index < len(groups)` guard never fails for the indices used.) -/
def safe_get (caps : Caps) (i : Nat) : Option String :=
  match capGet caps i with
  | some s => if s = "" then none else some s
  | none => none

/-! ### The record (Python dict) model -/

/-- A Python value stored in a parsed-record dict. -/
inductive Value where
  | null
  | str (s : String)
  | int (n : Int)
  | qparams (ps : List (String × String))
deriving DecidableEq

/-- A record: a Python dict with string keys, insertion-ordered. -/
abbrev Entry := List (String × Value)

def assocGet {β : Type} : List (String × β) → String → Option β
  | [], _ => none
  | (k', v) :: rest, k => if k' = k then some v else assocGet rest k

/-- `d[k] = v` on an insertion-ordered dict: overwrite in place if the key
exists, else append. -/
def assocSet {β : Type} : List (String × β) → String → β → List (String × β)
  | [], k, v => [(k, v)]
  | (k', v') :: rest, k, v =>
    if k' = k then (k, v) :: rest else (k', v') :: assocSet rest k v

def setKey (e : Entry) (k : String) (v : Value) : Entry := assocSet e k v

/-- `m.group(i+1)` stored directly into a dict slot: a string when the group
participated, `None` otherwise. -/
def pyGroup (caps : Caps) (i : Nat) : Value :=
  match capGet caps i with
  | some s => .str s
  | none => .null

/-- An `Option Int` stored into a dict slot (`None` ↦ null). -/
def intV : Option Int → Value
  | some n => .int n
  | none => .null

/-- An `Option String` stored into a dict slot (`None` ↦ null). -/
def strV : Option String → Value
  | some s => .str s
  | none => .null

/-! ### Timestamp handling -/

def isLeapYear (y : Nat) : Bool := y % 4 = 0 && (y % 100 ≠ 0 || y % 400 = 0)

def daysInMonth (y m : Nat) : Nat :=
  if m = 2 then (if isLeapYear y then 29 else 28)
  else if m = 4 || m = 6 || m = 9 || m = 11 then 30 else 31

def twoDigits (a b : Char) : Nat := (a.toNat - 48) * 10 + (b.toNat - 48)

/-- `datetime.strptime(s, '%Y-%m-%dT%H:%M:%SZ').isoformat()` as an `Option`:
`none` models the `ValueError` raised either by `strptime` on a shape or
range violation or by the `datetime` constructor (year 0, second 60/61),
`some` the canonical `YYYY-MM-DDTHH:MM:SS` rendering (the input without its
trailing `Z`). -/
def strptimeIsoZ (s : String) : Option String :=
  match s.toList with
  | [y1, y2, y3, y4, '-', m1, m2, '-', d1, d2, 'T',
     h1, h2, ':', mi1, mi2, ':', s1, s2, 'Z'] =>
    if [y1, y2, y3, y4, m1, m2, d1, d2, h1, h2, mi1, mi2, s1, s2].all isDigitC then
      let y := twoDigits y1 y2 * 100 + twoDigits y3 y4
      let mo := twoDigits m1 m2
      let d := twoDigits d1 d2
      if 1 ≤ y && 1 ≤ mo && mo ≤ 12 && 1 ≤ d && d ≤ daysInMonth y mo &&
         twoDigits h1 h2 ≤ 23 && twoDigits mi1 mi2 ≤ 59 && twoDigits s1 s2 ≤ 59 then
        some (String.mk (s.toList.take 19))
      else none
    else none
  | _ => none

/-! ### Path / query-string splitting (identical logic appears in the strict
path, lines 92–102, and in the fallback HTTP branch, lines 135–148). -/

/-- Builds `query_params` from a non-empty query string: split on `&`, and
each segment containing `=` contributes `key ↦ value` split at the first
`=`; dict semantics make the last occurrence of a duplicate key win. -/
def parseQueryParams (qs : List Char) : List (String × String) :=
  (splitAll '&' qs).foldl
    (fun acc param =>
      if param.contains '=' then
        match splitFirst '=' param with
        | (k, some v) => assocSet acc (String.mk k) (String.mk v)
        | (_, none) => acc
      else acc)
    []

/-- `full_path.split('?', 1)` and the derived `path` / `query_string` /
`query_params` triple: `query_string` is `None` when there is no `?`, the
(possibly empty) remainder otherwise; `query_params` is `{}` unless
`query_string` is truthy (non-empty). -/
def splitFullPath (fp : String) : String × Option String × List (String × String) :=
  match splitFirst '?' fp.toList with
  | (path, none) => (String.mk path, none, [])
  | (path, some qs) =>
    (String.mk path, some (String.mk qs), if qs = [] then [] else parseQueryParams qs)

/-! ### `parse_log_line` -/

/-- Lines 76–82 of the strict path: the guarded timestamp conversion
(`if timestamp_str:` then `strptime`, with the `ValueError` handler writing
an explicit `None`). -/
def stTimestamp (caps : Caps) (r : Entry) : Entry :=
  match safe_get caps 1 with
  | some ts =>
    match strptimeIsoZ ts with
    | some canon => setKey r "timestamp" (.str canon)
    | none => setKey r "timestamp" .null
  | none => r

/-- Lines 92–102 of the strict path: the `if full_path:` block deriving
`path`, `query_string` and `query_params`. -/
def stPath (caps : Caps) (r : Entry) : Entry :=
  match safe_get caps 10 with
  | some fp =>
    let pqq := splitFullPath fp
    setKey (setKey (setKey r "path" (.str pqq.1))
      "query_string" (strV pqq.2.1)) "query_params" (.qparams pqq.2.2)
  | none => r

/-- The strict-path record construction, `log_parser.py` lines 73–109:
every field is written positionally from its capture group, in source
order. -/
def strictEntry (line : List Char) (caps : Caps) : Entry :=
  let r : Entry := [("raw_line", Value.str (String.mk line))]
  let r := setKey r "priority" (intV (safe_int (safe_get caps 0)))
  let r := stTimestamp caps r
  let r := setKey r "cache_server" (strV (safe_get caps 2))
  let r := setKey r "process" (strV (safe_get caps 3))
  let r := setKey r "pid" (intV (safe_int (safe_get caps 4)))
  let r := setKey r "ip_address" (strV (safe_get caps 5))
  let r := setKey r "referrer1" (strV (safe_get caps 6))
  let r := setKey r "referrer2" (strV (safe_get caps 7))
  let r := setKey r "date_string" (strV (safe_get caps 8))
  let r := stPath caps r
  let r := setKey r "http_method" (strV (safe_get caps 9))
  let r := setKey r "status_code" (intV (safe_int (safe_get caps 11)))
  let r := setKey r "response_size" (intV (safe_int (safe_get caps 12)))
  let r := setKey r "referrer" (strV (safe_get caps 13))
  let r := setKey r "user_agent" (strV (safe_get caps 14))
  setKey r "cache_status" (strV (safe_get caps 15))

/-! The fallback extractors, `log_parser.py` lines 111–186, one function per
independent `re.search` block. -/

/-- Lines 113–119: fallback timestamp (`pass` swallows the `ValueError`). -/
def fbTimestamp (line : List Char) (r : Entry) : Entry :=
  match reSearch TS_RE line with
  | some caps =>
    match capGet caps 0 with
    | some ts =>
      match strptimeIsoZ ts with
      | some canon => setKey r "timestamp" (.str canon)
      | none => r
    | none => r
  | none => r

/-- Lines 121–124: fallback priority. -/
def fbPriority (line : List Char) (r : Entry) : Entry :=
  match reSearch PRIO_RE line with
  | some caps => setKey r "priority" (intV (safe_int (capGet caps 0)))
  | none => r

/-- Lines 126–129: fallback IP address. -/
def fbIp (line : List Char) (r : Entry) : Entry :=
  match reSearch IP_RE line with
  | some caps => setKey r "ip_address" (pyGroup caps 0)
  | none => r

/-- Lines 131–148: fallback HTTP method, path and query parsing. -/
def fbHttp (line : List Char) (r : Entry) : Entry :=
  match reSearch HTTP_RE line with
  | some caps =>
    let r := setKey r "http_method" (pyGroup caps 0)
    let pqq := splitFullPath ((capGet caps 1).getD "")
    let r := setKey r "path" (.str pqq.1)
    let r := setKey r "query_string" (strV pqq.2.1)
    setKey r "query_params" (.qparams pqq.2.2)
  | none => r

/-- Lines 150–153: fallback status code. -/
def fbStatus (line : List Char) (r : Entry) : Entry :=
  match reSearch STATUS_RE line with
  | some caps => setKey r "status_code" (intV (safe_int (capGet caps 0)))
  | none => r

/-- Lines 155–158: fallback response size (`group(2)`). -/
def fbSize (line : List Char) (r : Entry) : Entry :=
  match reSearch SIZE_RE line with
  | some caps => setKey r "response_size" (intV (safe_int (capGet caps 1)))
  | none => r

/-- Python's substring test `needle in hay`. -/
def containsSub (needle : List Char) : List Char → Bool
  | [] => [] == needle
  | c :: rest => ((c :: rest).take needle.length == needle) || containsSub needle rest

/-- The user-agent value the two-branch fallback of lines 160–168 would
assign, if any: a quoted field containing `Mozilla`, else a quoted field of
at least 20 characters that contains `Mozilla`. -/
def uaExtract (line : List Char) : Option Value :=
  match reSearch UA1_RE line with
  | some caps => some (pyGroup caps 0)
  | none =>
    match reSearch UA2_RE line with
    | some caps =>
      match capGet caps 0 with
      | some g => if containsSub "Mozilla".toList g.toList then some (.str g) else none
      | none => none
    | none => none

/-- The user-agent value the first branch alone (line 161–163) would
assign, if any. -/
def uaFirstOnly (line : List Char) : Option Value :=
  match reSearch UA1_RE line with
  | some caps => some (pyGroup caps 0)
  | none => none

/-- Lines 160–168: fallback user agent. -/
def fbUA (line : List Char) (r : Entry) : Entry :=
  match uaExtract line with
  | some v => setKey r "user_agent" v
  | none => r

/-- Lines 170–173: fallback cache status. -/
def fbCache (line : List Char) (r : Entry) : Entry :=
  match reSearch CACHE_RE line with
  | some caps => setKey r "cache_status" (pyGroup caps 0)
  | none => r

/-- Lines 175–178: fallback cache server (`'cache-' + group(1)`). -/
def fbServer (line : List Char) (r : Entry) : Entry :=
  match reSearch SERVER_RE line with
  | some caps => setKey r "cache_server" (.str ("cache-" ++ (capGet caps 0).getD ""))
  | none => r

/-- Lines 180–184: fallback process and pid. -/
def fbProcess (line : List Char) (r : Entry) : Entry :=
  match reSearch PROCESS_RE line with
  | some caps =>
    let r := setKey r "process" (pyGroup caps 0)
    setKey r "pid" (intV (safe_int (capGet caps 1)))
  | none => r

/-- The whole fallback cascade in source order. -/
def fallbackEntry (line : List Char) (r : Entry) : Entry :=
  fbProcess line (fbServer line (fbCache line (fbUA line (fbSize line
    (fbStatus line (fbHttp line (fbIp line (fbPriority line
      (fbTimestamp line r)))))))))

/-- `parse_log_line` from `log_parser.py` lines 52–186. -/
def parse_log_line (line : String) : Option Entry :=
  if pyStripList line.toList = [] then none
  else
    match reMatchTop LOG_PATTERN (pyStripList line.toList) with
    | some caps => some (strictEntry (pyStripList line.toList) caps)
    | none =>
      some (fallbackEntry (pyStripList line.toList)
        [("raw_line", Value.str (String.mk (pyStripList line.toList)))])

/-! ### `process_log_file` -/

/-- Stamping of provenance fields, `log_parser.py` lines 205–206. -/
def stampEntry (fp : String) (n : Nat) (e : Entry) : Entry :=
  setKey (setKey e "source_file" (.str fp)) "line_number" (.int n)

/-- The enumerated per-line loop body of `process_log_file`:
`n` is the 1-based number of the first line of `lines`. -/
def processLines (fp : String) : Nat → List String → List Entry
  | _, [] => []
  | n, l :: ls =>
    match parse_log_line l with
    | some e => stampEntry fp n e :: processLines fp (n + 1) ls
    | none => processLines fp (n + 1) ls

/-- `process_log_file` from `log_parser.py` lines 189–217, on the decoded
line sequence of the file (file opening, gzip decompression and the
permissive decoding are I/O and sit outside the embedding; both the `.gz`
and the plain branch run this same loop starting at line number 1). -/
def process_log_file (fp : String) (lines : List String) : List Entry :=
  processLines fp 1 lines

/-! ### `save_csv_streaming` (`log_parser.py` lines 233–252)

The file handle is I/O; the embedding models the sequence of CSV rows the
writer emits, with `Except` carrying the exception that aborts the write:
the `KeyError` from `entry['query_params']` on a record lacking that key,
or the `ValueError` that `csv.DictWriter.writerow` raises (default
`extrasaction='raise'`) when a record has keys outside `fieldnames`.
Missing keys are filled with the default `restval` `''`. -/

def jsonEscapeChar (c : Char) : String :=
  if c = '"' then "\\\""
  else if c = '\\' then "\\\\"
  else if c = '\n' then "\\n"
  else if c = '\t' then "\\t"
  else if c = '\r' then "\\r"
  else String.mk [c]

def jsonString (s : String) : String :=
  "\"" ++ String.join (s.toList.map jsonEscapeChar) ++ "\""

/-- `json.dumps` of a `query_params` dict. -/
def jsonDumpsQP (ps : List (String × String)) : String :=
  "\x7b" ++ String.intercalate ", "
    (ps.map (fun kv => jsonString kv.1 ++ ": " ++ jsonString kv.2)) ++ "\x7d"

/-- `json.dumps(entry['query_params'])` for whatever value sits there. -/
def jsonDumpsValue : Value → String
  | .null => "null"
  | .str s => jsonString s
  | .int n => toString n
  | .qparams ps => jsonDumpsQP ps

/-- Lines 240–243: `flat_entry = entry.copy();
flat_entry['query_params'] = json.dumps(entry['query_params'])`.
The unconditional subscript read raises `KeyError` when the record has no
`query_params` key. -/
def flattenStep (e : Entry) : Except String Entry :=
  match assocGet e "query_params" with
  | none => .error "KeyError: query_params"
  | some v => .ok (setKey e "query_params" (.str (jsonDumpsValue v)))

/-- How the `csv` writer renders one cell (`None` becomes the empty field). -/
def csvCell : Value → String
  | .null => ""
  | .str s => s
  | .int n => toString n
  | .qparams ps => jsonDumpsQP ps

/-- `csv.DictWriter.writerow` with the default `extrasaction='raise'` and
`restval=''`: raises `ValueError` when the record has a key outside
`fieldnames`, otherwise emits the record's values in fieldname order. -/
def writerow (fieldnames : List String) (e : Entry) : Except String (List String) :=
  if (e.map Prod.fst).all (fun k => fieldnames.contains k) then
    .ok (fieldnames.map (fun k =>
      match assocGet e k with
      | some v => csvCell v
      | none => ""))
  else .error "ValueError: dict contains fields not in fieldnames"

/-- The streaming loop of `save_csv_streaming`: `fns?` is `none` until the
first record fixes the column set from its keys. -/
def saveCsvGo : Option (List String) → List Entry → Except String (List (List String))
  | _, [] => .ok []
  | fns?, e :: rest =>
    match flattenStep e with
    | .error m => .error m
    | .ok flat =>
      let fns := fns?.getD (flat.map Prod.fst)
      match writerow fns flat with
      | .error m => .error m
      | .ok row =>
        match saveCsvGo (some fns) rest with
        | .error m => .error m
        | .ok rows => .ok (row :: rows)

/-- `save_csv_streaming` on a record stream: the emitted data rows (the
header row repeats the first record's keys and is omitted here), or the
exception that aborts the write. -/
def save_csv_streaming (entries : List Entry) : Except String (List (List String)) :=
  saveCsvGo none entries

/-! ### Auxiliary definitions used by the verification -/

/-- The sample input line of the spec's end-to-end case. -/
def sampleLine : String :=
  "<134>2024-01-15T10:30:00Z cache-server01 fastly-log[1234]: 203.0.113.5 \"-\" \"-\" [15/Jan/2024:10:30:00 +0000] \"GET /api/search?q=test&page=2 HTTP/1.1\" 200 15234 \"-\" \"Mozilla/5.0\" hit"

/-- The capture list `LOG_PATTERN` produces on the sample line (group `i`
here is Python group `i+1`). -/
def sampleCaps : Caps :=
  [(15, "hit"), (14, "Mozilla/5.0"), (13, "-"), (12, "15234"), (11, "200"),
   (10, "/api/search?q=test&page=2 HTTP/1.1"), (9, "GET"),
   (8, "[15/Jan/2024:10:30:00 +0000]"), (7, "-"), (6, "-"), (5, "203.0.113.5"),
   (4, "1234"), (3, "fastly-log"), (2, "cache-server01"),
   (1, "2024-01-15T10:30:00Z"), (0, "134")]

/-- A line that misses the strict grammar and contains a substring of the
ISO-8601 *shape* which is not a valid calendar date (month 13). -/
def badTsLine : String := "foo 2024-13-01T00:00:00Z"

/-- A line that misses the strict grammar and contains a valid ISO-8601
timestamp substring. -/
def goodTsLine : String := "foo 2024-01-15T10:30:00Z bar"

/-- Whether an `Except` result is a success. -/
def exceptOk {α : Type} : Except String α → Bool
  | .ok _ => true
  | .error _ => false

/-- The two concrete records of the C7 counterexample: the second has an
extra key `b` that the first does not have. -/
def csvRecA : Entry := [("a", Value.str "1"), ("query_params", Value.qparams [])]

def csvRecB : Entry :=
  [("a", Value.str "2"), ("query_params", Value.qparams []), ("b", Value.str "x")]


/-- Relational semantics of the regex AST: `Sem r prev xs after capsIn
capsOut` says that pattern `r`, entered with `prev` as the preceding
character and with the text `after` following, can consume exactly `xs`,
turning the capture list `capsIn` into `capsOut`.  `reMatch` is sound and
complete for it (`reMatch_sound`, `reMatch_complete`). -/
inductive Sem : RE → Option Char → List Char → List Char → Caps → Caps → Prop where
  | epsilon {prev : Option Char} {after : List Char} {caps : Caps} :
      Sem .epsilon prev [] after caps caps
  | cls {p : Char → Bool} {c : Char} {prev : Option Char} {after : List Char}
      {caps : Caps} (h : p c = true) : Sem (.cls p) prev [c] after caps caps
  | str {s : List Char} {prev : Option Char} {after : List Char} {caps : Caps} :
      Sem (.str s) prev s after caps caps
  | cat {r1 r2 : RE} {prev : Option Char} {xs ys after : List Char}
      {caps caps1 caps2 : Caps}
      (h1 : Sem r1 prev xs (ys ++ after) caps caps1)
      (h2 : Sem r2 (lastPrev prev xs) ys after caps1 caps2) :
      Sem (.cat r1 r2) prev (xs ++ ys) after caps caps2
  | altL {r1 r2 : RE} {prev : Option Char} {xs after : List Char}
      {caps caps1 : Caps} (h : Sem r1 prev xs after caps caps1) :
      Sem (.alt r1 r2) prev xs after caps caps1
  | altR {r1 r2 : RE} {prev : Option Char} {xs after : List Char}
      {caps caps1 : Caps} (h : Sem r2 prev xs after caps caps1) :
      Sem (.alt r1 r2) prev xs after caps caps1
  | rep {p : Char → Bool} {lo : Nat} {hi : Option Nat} {greedy : Bool}
      {prev : Option Char} {xs after : List Char} {caps : Caps}
      (hlo : lo ≤ xs.length) (hhi : ∀ h ∈ hi, xs.length ≤ h)
      (hall : ∀ c ∈ xs, p c = true) :
      Sem (.rep p lo hi greedy) prev xs after caps caps
  | group {i : Nat} {r : RE} {prev : Option Char} {xs after : List Char}
      {caps caps1 : Caps} (h : Sem r prev xs after caps caps1) :
      Sem (.group i r) prev xs after caps ((i, String.mk xs) :: caps1)
  | lookahead {r : RE} {prev : Option Char} {ys after2 : List Char}
      {caps caps1 : Caps} (h : Sem r prev ys after2 caps caps1) :
      Sem (.lookahead r) prev [] (ys ++ after2) caps caps1
  | wordB {prev : Option Char} {after : List Char} {caps : Caps}
      (h : (isWordOpt prev != isWordOpt after.head?) = true) :
      Sem .wordB prev [] after caps caps
  | eos {prev : Option Char} {caps : Caps} : Sem .eos prev [] [] caps caps

/-- Patterns without lookahead (the completeness direction of the matcher is
stated for these; the lookahead construct is only used inside `LOG_PATTERN`,
for which only soundness is needed). -/
def lookFree : RE → Bool
  | .epsilon => true
  | .cls _ => true
  | .str _ => true
  | .cat r1 r2 => lookFree r1 && lookFree r2
  | .alt r1 r2 => lookFree r1 && lookFree r2
  | .rep _ _ _ _ => true
  | .group _ r => lookFree r
  | .lookahead _ => false
  | .wordB => true
  | .eos => true

/-- Patterns without capture groups (they leave the capture list unchanged,
`sem_caps_groupfree`). -/
def groupFree : RE → Bool
  | .epsilon => true
  | .cls _ => true
  | .str _ => true
  | .cat r1 r2 => groupFree r1 && groupFree r2
  | .alt r1 r2 => groupFree r1 && groupFree r2
  | .rep _ _ _ _ => true
  | .group _ _ => false
  | .lookahead r => groupFree r
  | .wordB => true
  | .eos => true

/-- All capture groups of the pattern have index at least `n`. -/
def groupsAbove (n : Nat) : RE → Bool
  | .epsilon => true
  | .cls _ => true
  | .str _ => true
  | .cat r1 r2 => groupsAbove n r1 && groupsAbove n r2
  | .alt r1 r2 => groupsAbove n r1 && groupsAbove n r2
  | .rep _ _ _ _ => true
  | .group i r => decide (n ≤ i) && groupsAbove n r
  | .lookahead r => groupsAbove n r
  | .wordB => true
  | .eos => true

/-! ## Soundness and completeness of the matcher -/

theorem lastPrev_append (prev : Option Char) (xs ys : List Char) :
    lastPrev prev (xs ++ ys) = lastPrev (lastPrev prev xs) ys := by
  induction xs generalizing prev with
  | nil => rfl
  | cons c cs ih => exact ih (some c)

theorem prevAfter_append (xs rest : List Char) (prev : Option Char) :
    prevAfter (xs ++ rest) prev xs.length = lastPrev prev xs := by
  unfold prevAfter
  rw [List.take_left]

theorem countRun_le_length (p : Char → Bool) (l : List Char) :
    countRun p l ≤ l.length := by
  induction l with
  | nil => exact Nat.le_refl 0
  | cons c cs ih =>
    unfold countRun
    by_cases h : p c
    · rw [if_pos h]; exact Nat.succ_le_succ ih
    · rw [if_neg h]; exact Nat.zero_le _

theorem all_take_of_le_countRun (p : Char → Bool) (l : List Char) (i : Nat)
    (h : i ≤ countRun p l) : ∀ c ∈ l.take i, p c = true := by
  induction l generalizing i with
  | nil => intro c hc; simp at hc
  | cons a as ih =>
    intro c hc
    cases i with
    | zero => simp at hc
    | succ j =>
      unfold countRun at h
      by_cases hp : p a
      · rw [if_pos hp] at h
        rw [List.take_succ_cons] at hc
        rcases List.mem_cons.mp hc with rfl | hc'
        · exact hp
        · exact ih j (Nat.le_of_succ_le_succ h) c hc'
      · rw [if_neg hp] at h
        exact absurd h (by omega)

theorem le_countRun_of_all (p : Char → Bool) (xs rest : List Char)
    (hall : ∀ c ∈ xs, p c = true) :
    xs.length ≤ countRun p (xs ++ rest) := by
  induction xs with
  | nil => exact Nat.zero_le _
  | cons a as ih =>
    have hp : p a = true := hall a (List.mem_cons_self a as)
    show as.length + 1 ≤ countRun p (a :: (as ++ rest))
    unfold countRun
    rw [if_pos hp]
    exact Nat.succ_le_succ (ih (fun c hc => hall c (List.mem_cons_of_mem a hc)))

theorem mem_repCounts (i lo maxC : Nat) (g : Bool) (hle : lo ≤ maxC)
    (h : i ∈ repCounts lo maxC g) : lo ≤ i ∧ i ≤ maxC := by
  unfold repCounts at h
  obtain ⟨j, hj, hji⟩ := List.mem_map.mp h
  have hj' : j < maxC - lo + 1 := List.mem_range.mp hj
  cases g with
  | true => simp at hji; omega
  | false => simp at hji; omega

theorem repCounts_mem_of (i lo maxC : Nat) (g : Bool) (h1 : lo ≤ i)
    (h2 : i ≤ maxC) : i ∈ repCounts lo maxC g := by
  unfold repCounts
  apply List.mem_map.mpr
  cases g with
  | true => exact ⟨maxC - i, List.mem_range.mpr (by omega), by simp; omega⟩
  | false => exact ⟨i - lo, List.mem_range.mpr (by omega), by simp; omega⟩

theorem findSome?_eq_some_ex {α β : Type} (f : α → Option β) (l : List α) (b : β)
    (h : l.findSome? f = some b) : ∃ a ∈ l, f a = some b := by
  induction l with
  | nil => exact absurd h (by simp)
  | cons x xs ih =>
    rw [List.findSome?_cons] at h
    cases hx : f x with
    | some y =>
      rw [hx] at h
      exact ⟨x, List.mem_cons_self x xs, by rw [hx]; exact h⟩
    | none =>
      rw [hx] at h
      obtain ⟨a, ha, hfa⟩ := ih h
      exact ⟨a, List.mem_cons_of_mem x ha, hfa⟩

theorem findSome?_ne_none {α β : Type} (f : α → Option β) (l : List α) (a : α)
    (ha : a ∈ l) (hf : f a ≠ none) : l.findSome? f ≠ none := by
  induction l with
  | nil => cases ha
  | cons x xs ih =>
    rw [List.findSome?_cons]
    cases hx : f x with
    | some y => simp
    | none =>
      rcases List.mem_cons.mp ha with rfl | ha'
      · exact absurd hx hf
      · exact ih ha'

/-- Soundness of the matcher: a successful run decomposes the input into a
consumed prefix related to the pattern by `Sem` and a continuation run. -/
theorem reMatch_sound (r : RE) :
    ∀ (input : List Char) (prev : Option Char) (caps : Caps)
      (k : List Char → Option Char → Caps → Option Caps) (res : Caps),
      reMatch r input prev caps k = some res →
      ∃ xs after caps1, input = xs ++ after ∧
        Sem r prev xs after caps caps1 ∧
        k after (lastPrev prev xs) caps1 = some res := by
  induction r with
  | epsilon =>
    intro input prev caps k res h
    exact ⟨[], input, caps, rfl, Sem.epsilon, h⟩
  | cls p =>
    intro input prev caps k res h
    unfold reMatch at h
    cases input with
    | nil => exact absurd h (by simp)
    | cons c rs =>
      dsimp only at h
      by_cases hp : p c = true
      · rw [if_pos hp] at h
        exact ⟨[c], rs, caps, rfl, Sem.cls hp, h⟩
      · rw [if_neg hp] at h
        exact absurd h (by simp)
  | str s =>
    intro input prev caps k res h
    unfold reMatch at h
    by_cases ht : input.take s.length = s
    · rw [if_pos ht] at h
      refine ⟨s, input.drop s.length, caps, ?_, Sem.str, ?_⟩
      · have hsplit := List.take_append_drop s.length input
        rw [ht] at hsplit
        exact hsplit.symm
      · have hpa : prevAfter input prev s.length = lastPrev prev s := by
          unfold prevAfter
          rw [ht]
        rwa [hpa] at h
    · rw [if_neg ht] at h
      exact absurd h (by simp)
  | cat r1 r2 ih1 ih2 =>
    intro input prev caps k res h
    unfold reMatch at h
    obtain ⟨xs, after1, caps1, hin, hsem1, hk1⟩ := ih1 input prev caps _ res h
    obtain ⟨ys, after, caps2, hin2, hsem2, hk2⟩ :=
      ih2 after1 (lastPrev prev xs) caps1 k res hk1
    subst hin2
    refine ⟨xs ++ ys, after, caps2, ?_, Sem.cat hsem1 hsem2, ?_⟩
    · rw [hin, List.append_assoc]
    · rwa [lastPrev_append]
  | alt r1 r2 ih1 ih2 =>
    intro input prev caps k res h
    unfold reMatch at h
    cases h1 : reMatch r1 input prev caps k with
    | some res1 =>
      rw [h1] at h
      have hres : res1 = res := by
        simpa using h
      rw [hres] at h1
      obtain ⟨xs, after, caps1, hin, hsem, hk⟩ := ih1 input prev caps k res h1
      exact ⟨xs, after, caps1, hin, Sem.altL hsem, hk⟩
    | none =>
      rw [h1] at h
      obtain ⟨xs, after, caps1, hin, hsem, hk⟩ := ih2 input prev caps k res h
      exact ⟨xs, after, caps1, hin, Sem.altR hsem, hk⟩
  | rep p lo hi greedy =>
    intro input prev caps k res h
    unfold reMatch at h
    have hdone : ∀ maxC, lo ≤ maxC → maxC ≤ countRun p input →
        (∀ hb ∈ hi, maxC ≤ hb) →
        (repCounts lo maxC greedy).findSome?
          (fun i => k (input.drop i) (prevAfter input prev i) caps) = some res →
        ∃ xs after caps1, input = xs ++ after ∧
          Sem (.rep p lo hi greedy) prev xs after caps caps1 ∧
          k after (lastPrev prev xs) caps1 = some res := by
      intro maxC hle hrun hhi hfind
      obtain ⟨i, hi_mem, hki⟩ := findSome?_eq_some_ex _ _ _ hfind
      obtain ⟨h1, h2⟩ := mem_repCounts i lo maxC greedy hle hi_mem
      have hirun : i ≤ countRun p input := Nat.le_trans h2 hrun
      have hilen : i ≤ input.length := Nat.le_trans hirun (countRun_le_length p input)
      refine ⟨input.take i, input.drop i, caps,
        (List.take_append_drop i input).symm, ?_, hki⟩
      apply Sem.rep
      · rw [List.length_take]; omega
      · intro hb hmem
        rw [List.length_take]
        have := hhi hb hmem
        omega
      · exact all_take_of_le_countRun p input i hirun
    cases hi with
    | none =>
      dsimp only at h
      by_cases hle : lo ≤ countRun p input
      · rw [if_pos hle] at h
        exact hdone _ hle (Nat.le_refl _) (by intro hb hmem; simp at hmem) h
      · rw [if_neg hle] at h
        exact absurd h (by simp)
    | some hb =>
      dsimp only at h
      by_cases hle : lo ≤ min (countRun p input) hb
      · rw [if_pos hle] at h
        refine hdone _ hle (Nat.min_le_left _ _) ?_ h
        intro hb' hmem
        have hbb : hb = hb' := by simpa using hmem
        subst hbb
        exact Nat.min_le_right _ _
      · rw [if_neg hle] at h
        exact absurd h (by simp)
  | group i r ih =>
    intro input prev caps k res h
    unfold reMatch at h
    obtain ⟨xs, after, caps1, hin, hsem, hk⟩ := ih input prev caps _ res h
    have htake : input.take (input.length - after.length) = xs := by
      rw [hin, List.length_append, Nat.add_sub_cancel, List.take_left]
    rw [htake] at hk
    exact ⟨xs, after, (i, String.mk xs) :: caps1, hin, Sem.group hsem, hk⟩
  | lookahead r ih =>
    intro input prev caps k res h
    unfold reMatch at h
    cases h1 : reMatch r input prev caps (fun _ _ cs => some cs) with
    | none =>
      rw [h1] at h
      exact absurd h (by simp)
    | some cs0 =>
      rw [h1] at h
      dsimp only at h
      obtain ⟨ys, after2, caps1, hin, hsem, hk⟩ := ih input prev caps _ cs0 h1
      have hcaps : caps1 = cs0 := by simpa using hk
      rw [← hcaps] at h
      refine ⟨[], input, caps1, rfl, ?_, h⟩
      rw [hin]
      exact Sem.lookahead hsem
  | wordB =>
    intro input prev caps k res h
    unfold reMatch at h
    by_cases hb : (isWordOpt prev != isWordOpt input.head?) = true
    · rw [if_pos hb] at h
      exact ⟨[], input, caps, rfl, Sem.wordB hb, h⟩
    · rw [if_neg hb] at h
      exact absurd h (by simp)
  | eos =>
    intro input prev caps k res h
    unfold reMatch at h
    cases input with
    | nil => exact ⟨[], [], caps, rfl, Sem.eos, h⟩
    | cons c rs =>
      dsimp only at h
      exact absurd h (by simp)

/-- Completeness of the matcher for lookahead-free patterns: if `Sem`
relates a decomposition of the input to the pattern and the continuation
succeeds at the witness point, the engine cannot fail (it backtracks through
every branch, so it finds the witness branch or something earlier). -/
theorem reMatch_complete {r : RE} {prev : Option Char} {xs after : List Char}
    {capsIn capsOut : Caps} (hsem : Sem r prev xs after capsIn capsOut) :
    lookFree r = true → ∀ k, k after (lastPrev prev xs) capsOut ≠ none →
      reMatch r (xs ++ after) prev capsIn k ≠ none := by
  induction hsem with
  | epsilon => intro _ k hk; exact hk
  | @cls p c prev after caps h =>
    intro _ k hk
    unfold reMatch
    simp only [List.singleton_append]
    rw [if_pos h]
    exact hk
  | str =>
    intro _ k hk
    unfold reMatch
    rw [if_pos (List.take_left _ _)]
    rw [List.drop_left, prevAfter_append]
    exact hk
  | @cat r1 r2 prev xs ys after caps caps1 caps2 h1 h2 ih1 ih2 =>
    intro hfree k hk
    unfold lookFree at hfree
    rw [Bool.and_eq_true] at hfree
    obtain ⟨hf1, hf2⟩ := hfree
    rw [List.append_assoc]
    unfold reMatch
    apply ih1 hf1
    show reMatch r2 (ys ++ after) (lastPrev prev xs) caps1 k ≠ none
    apply ih2 hf2
    rw [← lastPrev_append]
    exact hk
  | @altL r1 r2 prev xs after caps caps1 h ih =>
    intro hfree k hk
    unfold lookFree at hfree
    rw [Bool.and_eq_true] at hfree
    obtain ⟨hf1, hf2⟩ := hfree
    unfold reMatch
    cases h1 : reMatch r1 (xs ++ after) prev caps k with
    | some res => simp
    | none => exact absurd h1 (ih hf1 k hk)
  | @altR r1 r2 prev xs after caps caps1 h ih =>
    intro hfree k hk
    unfold lookFree at hfree
    rw [Bool.and_eq_true] at hfree
    obtain ⟨hf1, hf2⟩ := hfree
    unfold reMatch
    cases h1 : reMatch r1 (xs ++ after) prev caps k with
    | some res => simp
    | none =>
      dsimp only
      exact ih hf2 k hk
  | @rep p lo hi greedy prev xs after caps hlo hhi hall =>
    intro _ k hk
    unfold reMatch
    dsimp only
    have hrun : xs.length ≤ countRun p (xs ++ after) :=
      le_countRun_of_all p xs after hall
    have hdrop : ∀ caps',
        k ((xs ++ after).drop xs.length) (prevAfter (xs ++ after) prev xs.length)
            caps' = k after (lastPrev prev xs) caps' := by
      intro caps'
      rw [List.drop_left, prevAfter_append]
    cases hi with
    | none =>
      dsimp only
      rw [if_pos (Nat.le_trans hlo hrun)]
      apply findSome?_ne_none _ _ xs.length
      · exact repCounts_mem_of _ _ _ _ hlo hrun
      · show k ((xs ++ after).drop xs.length)
            (prevAfter (xs ++ after) prev xs.length) caps ≠ none
        rw [hdrop]
        exact hk
    | some hb =>
      dsimp only
      have hxb : xs.length ≤ hb := hhi hb rfl
      rw [if_pos (by omega : lo ≤ min (countRun p (xs ++ after)) hb)]
      apply findSome?_ne_none _ _ xs.length
      · exact repCounts_mem_of _ _ _ _ hlo (by omega)
      · show k ((xs ++ after).drop xs.length)
            (prevAfter (xs ++ after) prev xs.length) caps ≠ none
        rw [hdrop]
        exact hk
  | @group i r prev xs after caps caps1 h ih =>
    intro hfree k hk
    unfold lookFree at hfree
    unfold reMatch
    apply ih hfree
    show k after (lastPrev prev xs)
        ((i, String.mk ((xs ++ after).take ((xs ++ after).length - after.length)))
          :: caps1) ≠ none
    have htake : (xs ++ after).take ((xs ++ after).length - after.length) = xs := by
      rw [List.length_append, Nat.add_sub_cancel, List.take_left]
    rw [htake]
    exact hk
  | lookahead h ih =>
    intro hfree k hk
    exact absurd hfree (by simp [lookFree])
  | @wordB prev after caps h =>
    intro _ k hk
    unfold reMatch
    simp only [List.nil_append]
    rw [if_pos h]
    exact hk
  | eos =>
    intro _ k hk
    exact hk

/-- Soundness of `re.search`: a hit decomposes the input at some start
position where the anchored matcher succeeds. -/
theorem searchFrom_sound (r : RE) :
    ∀ (input : List Char) (prev : Option Char) (res : Caps),
      searchFrom r input prev = some res →
      ∃ pre suf, input = pre ++ suf ∧
        reMatch r suf (lastPrev prev pre) [] (fun _ _ cs => some cs) = some res := by
  intro input
  induction input with
  | nil =>
    intro prev res h
    exact ⟨[], [], rfl, h⟩
  | cons c rs ih =>
    intro prev res h
    unfold searchFrom at h
    cases h1 : reMatch r (c :: rs) prev [] (fun _ _ cs => some cs) with
    | some cs =>
      rw [h1] at h
      dsimp only at h
      exact ⟨[], c :: rs, rfl, h1.trans h⟩
    | none =>
      rw [h1] at h
      dsimp only at h
      obtain ⟨pre, suf, hin, hm⟩ := ih (some c) res h
      exact ⟨c :: pre, suf, by rw [hin]; rfl, hm⟩

/-- Completeness of `re.search`: if the anchored matcher can succeed at some
start position, the scan cannot fail. -/
theorem searchFrom_complete (r : RE) :
    ∀ (pre suf : List Char) (prev : Option Char),
      reMatch r suf (lastPrev prev pre) [] (fun _ _ cs => some cs) ≠ none →
      searchFrom r (pre ++ suf) prev ≠ none := by
  intro pre
  induction pre with
  | nil =>
    intro suf prev hm
    show searchFrom r suf prev ≠ none
    cases suf with
    | nil => exact hm
    | cons c rs =>
      unfold searchFrom
      cases h1 : reMatch r (c :: rs) prev [] (fun _ _ cs => some cs) with
      | some cs => simp
      | none => exact absurd h1 hm
  | cons c pre' ih =>
    intro suf prev hm
    show searchFrom r (c :: (pre' ++ suf)) prev ≠ none
    unfold searchFrom
    cases h1 : reMatch r (c :: (pre' ++ suf)) prev [] (fun _ _ cs => some cs) with
    | some cs => simp
    | none =>
      dsimp only
      exact ih suf (some c) hm

/-! ## The user-agent fallback (C9) -/

theorem containsSub_ex (n : List Char) :
    ∀ h : List Char, containsSub n h = true → ∃ a b, h = a ++ n ++ b := by
  intro h
  induction h with
  | nil =>
    intro hc
    unfold containsSub at hc
    have hn : ([] : List Char) = n := eq_of_beq hc
    exact ⟨[], [], by rw [← hn]; rfl⟩
  | cons c rest ih =>
    intro hc
    unfold containsSub at hc
    rw [Bool.or_eq_true] at hc
    rcases hc with hc | hc
    · have htake : (c :: rest).take n.length = n := eq_of_beq hc
      have hsplit := List.take_append_drop n.length (c :: rest)
      rw [htake] at hsplit
      exact ⟨[], (c :: rest).drop n.length, by rw [List.nil_append]; exact hsplit.symm⟩
    · obtain ⟨a, b, hab⟩ := ih hc
      exact ⟨c :: a, b, by rw [hab]; simp⟩

/-- Inversion of a successful anchored `UA2_RE` match: the text starts with
a quoted run of at least 20 non-quote characters, and group 1 captured
exactly that run. -/
theorem ua2_match_inv (suf : List Char) (prev : Option Char) (caps : Caps)
    (h : reMatch UA2_RE suf prev [] (fun _ _ cs => some cs) = some caps) :
    ∃ g rest, suf = '"' :: (g ++ '"' :: rest) ∧
      (∀ c ∈ g, notQuoteC c = true) ∧ 20 ≤ g.length ∧
      caps = [(0, String.mk g)] := by
  obtain ⟨xs, after, caps1, hin, hsem, hk⟩ :=
    reMatch_sound UA2_RE suf prev [] _ caps h
  have hcaps : caps1 = caps := by simpa using hk
  have hsem' : Sem (.cat (.str ['"'])
      (.cat (.group 0 (.rep notQuoteC 20 none true))
        (.cat (.str ['"']) .epsilon))) prev xs after [] caps1 := hsem
  cases hsem' with
  | @cat _ _ _ xs1 ys1 _ _ capsA _ h1 h2 =>
    cases h1 with
    | str =>
      cases h2 with
      | @cat _ _ _ xs2 ys2 _ _ capsB _ h3 h4 =>
        cases h3 with
        | @group _ _ _ _ _ _ capsC h5 =>
          cases h5 with
          | rep hlo hhi hall =>
            cases h4 with
            | @cat _ _ _ xs3 ys3 _ _ capsD _ h6 h7 =>
              cases h6 with
              | str =>
                cases h7 with
                | epsilon =>
                  refine ⟨xs2, after, ?_, hall, hlo, hcaps.symm⟩
                  rw [hin]
                  simp

/-- If the text contains a quoted field (no quotes inside) whose content
contains `Mozilla`, the first fallback search `"([^"]*Mozilla[^"]*)"`
cannot fail. -/
theorem ua1_search_of_quoted (line pre g rest a b : List Char)
    (hline : line = pre ++ '"' :: (g ++ '"' :: rest))
    (hg : g = a ++ "Mozilla".toList ++ b)
    (hq : ∀ c ∈ g, notQuoteC c = true) :
    reSearch UA1_RE line ≠ none := by
  have hqa : ∀ c ∈ a, notQuoteC c = true := by
    intro c hc
    exact hq c (by rw [hg]; exact List.mem_append_left _ (List.mem_append_left _ hc))
  have hqb : ∀ c ∈ b, notQuoteC c = true := by
    intro c hc
    exact hq c (by rw [hg]; exact List.mem_append_right _ hc)
  set moz : List Char := "Mozilla".toList with hmoz
  set p : Option Char := lastPrev none pre with hp
  -- the inner pattern of the capture group, consuming a ++ moz ++ b
  have sD : Sem (.cat (.rep notQuoteC 0 none true) .epsilon)
      (lastPrev (lastPrev (lastPrev p ['"']) a) moz) (b ++ []) ('"' :: rest)
      [] [] := by
    exact Sem.cat (Sem.rep (Nat.zero_le _) (by intro x hx; simp at hx) hqb)
      Sem.epsilon
  have sC : Sem (.cat (.str moz) (.cat (.rep notQuoteC 0 none true) .epsilon))
      (lastPrev (lastPrev p ['"']) a) (moz ++ (b ++ [])) ('"' :: rest) [] [] :=
    Sem.cat Sem.str sD
  have sInner : Sem (.cat (.rep notQuoteC 0 none true)
      (.cat (.str moz) (.cat (.rep notQuoteC 0 none true) .epsilon)))
      (lastPrev p ['"']) (a ++ (moz ++ (b ++ []))) ('"' :: rest) [] [] :=
    Sem.cat (Sem.rep (Nat.zero_le _) (by intro x hx; simp at hx) hqa) sC
  have hcons : a ++ (moz ++ (b ++ [])) = g := by
    rw [hg]; simp
  rw [hcons] at sInner
  have sGroup : Sem (.group 0 (.cat (.rep notQuoteC 0 none true)
      (.cat (.str moz) (.cat (.rep notQuoteC 0 none true) .epsilon))))
      (lastPrev p ['"']) g ('"' :: rest) [] [(0, String.mk g)] :=
    Sem.group sInner
  have sTail : Sem (.cat (.str ['"']) .epsilon) (lastPrev (lastPrev p ['"']) g)
      (['"'] ++ []) rest [(0, String.mk g)] [(0, String.mk g)] :=
    Sem.cat Sem.str Sem.epsilon
  have sMid : Sem (.cat (.group 0 (.cat (.rep notQuoteC 0 none true)
      (.cat (.str moz) (.cat (.rep notQuoteC 0 none true) .epsilon))))
      (.cat (.str ['"']) .epsilon))
      (lastPrev p ['"']) (g ++ (['"'] ++ [])) rest [] [(0, String.mk g)] :=
    Sem.cat sGroup sTail
  have sAll : Sem (.cat (.str ['"'])
      (.cat (.group 0 (.cat (.rep notQuoteC 0 none true)
        (.cat (.str moz) (.cat (.rep notQuoteC 0 none true) .epsilon))))
      (.cat (.str ['"']) .epsilon)))
      p (['"'] ++ (g ++ (['"'] ++ []))) rest [] [(0, String.mk g)] :=
    Sem.cat Sem.str sMid
  have hfree : lookFree UA1_RE = true := by decide
  have hmatch : reMatch UA1_RE ((['"'] ++ (g ++ (['"'] ++ []))) ++ rest) p []
      (fun _ _ cs => some cs) ≠ none := by
    exact reMatch_complete sAll hfree _ (by intro hcon; exact Option.noConfusion hcon)
  have hsuf : (['"'] ++ (g ++ (['"'] ++ []))) ++ rest = '"' :: (g ++ '"' :: rest) := by
    simp
  rw [hsuf] at hmatch
  have := searchFrom_complete UA1_RE pre ('"' :: (g ++ '"' :: rest)) none hmatch
  rw [← hline] at this
  exact this

/-- **C9**.  The two-branch fallback user-agent extractor (lines 160–168)
computes exactly the same value as its first branch alone: whenever the
second branch (a quoted field of ≥ 20 characters containing `Mozilla`)
would fire, the first search (a quoted field containing `Mozilla`) already
matched, so the second branch is dead code. -/
theorem c9_ua_fallback_redundant (line : List Char) :
    uaExtract line = uaFirstOnly line := by
  unfold uaExtract uaFirstOnly
  cases h1 : reSearch UA1_RE line with
  | some caps => rfl
  | none =>
    dsimp only
    cases h2 : reSearch UA2_RE line with
    | none => rfl
    | some caps =>
      dsimp only
      cases hg : capGet caps 0 with
      | none => rfl
      | some g =>
        dsimp only
        by_cases hmoz : containsSub "Mozilla".toList g.toList = true
        · exfalso
          obtain ⟨pre, suf, hin, hm⟩ := searchFrom_sound UA2_RE line none caps h2
          obtain ⟨g', rest, hsuf, hq, hlen, hcaps⟩ :=
            ua2_match_inv suf (lastPrev none pre) caps hm
          rw [hcaps] at hg
          have hgg : String.mk g' = g := by simpa [capGet] using hg
          have hglist : g.toList = g' := by rw [← hgg]; rfl
          obtain ⟨a, b, hab⟩ := containsSub_ex _ _ hmoz
          refine ua1_search_of_quoted line pre g' rest a b ?_ ?_ hq h1
          · rw [hin, hsuf]
          · rw [← hglist, hab]
        · rw [Bool.not_eq_true] at hmoz
          rw [if_neg (by simpa using hmoz)]

theorem sem_reSeq_cons {e : RE} {es : List RE} {prev : Option Char}
    {xs after : List Char} {capsIn capsOut : Caps}
    (h : Sem (reSeq (e :: es)) prev xs after capsIn capsOut) :
    ∃ x y caps1, xs = x ++ y ∧ Sem e prev x (y ++ after) capsIn caps1 ∧
      Sem (reSeq es) (lastPrev prev x) y after caps1 capsOut := by
  have h' : Sem (.cat e (reSeq es)) prev xs after capsIn capsOut := h
  cases h' with
  | @cat _ _ _ x y _ _ c1 _ h1 h2 => exact ⟨x, y, c1, rfl, h1, h2⟩

theorem sem_reSeq_nil {prev : Option Char} {xs after : List Char}
    {capsIn capsOut : Caps} (h : Sem (reSeq []) prev xs after capsIn capsOut) :
    xs = [] ∧ capsOut = capsIn := by
  have h' : Sem .epsilon prev xs after capsIn capsOut := h
  cases h'
  exact ⟨rfl, rfl⟩

theorem sem_caps_groupfree {r : RE} {prev : Option Char} {xs after : List Char}
    {capsIn capsOut : Caps} (h : Sem r prev xs after capsIn capsOut) :
    groupFree r = true → capsOut = capsIn := by
  induction h with
  | epsilon => intro _; rfl
  | cls _ => intro _; rfl
  | str => intro _; rfl
  | cat h1 h2 ih1 ih2 =>
    intro hg
    unfold groupFree at hg
    rw [Bool.and_eq_true] at hg
    rw [ih2 hg.2, ih1 hg.1]
  | altL h ih =>
    intro hg
    unfold groupFree at hg
    rw [Bool.and_eq_true] at hg
    exact ih hg.1
  | altR h ih =>
    intro hg
    unfold groupFree at hg
    rw [Bool.and_eq_true] at hg
    exact ih hg.2
  | rep _ _ _ => intro _; rfl
  | group h ih => intro hg; exact absurd hg (by simp [groupFree])
  | lookahead h ih =>
    intro hg
    unfold groupFree at hg
    exact ih hg
  | wordB _ => intro _; rfl
  | eos => intro _; rfl

theorem sem_str_inv {s : List Char} {prev : Option Char} {xs after : List Char}
    {capsIn capsOut : Caps} (h : Sem (.str s) prev xs after capsIn capsOut) :
    xs = s ∧ capsOut = capsIn := by
  cases h
  exact ⟨rfl, rfl⟩

theorem sem_rep_inv {p : Char → Bool} {lo : Nat} {hi : Option Nat} {g : Bool}
    {prev : Option Char} {xs after : List Char} {capsIn capsOut : Caps}
    (h : Sem (.rep p lo hi g) prev xs after capsIn capsOut) :
    lo ≤ xs.length ∧ (∀ c ∈ xs, p c = true) ∧ capsOut = capsIn := by
  cases h with
  | rep hlo hhi hall => exact ⟨hlo, hall, rfl⟩

theorem sem_group_inv {i : Nat} {r : RE} {prev : Option Char}
    {xs after : List Char} {capsIn capsOut : Caps}
    (h : Sem (.group i r) prev xs after capsIn capsOut)
    (hg : groupFree r = true) :
    capsOut = (i, String.mk xs) :: capsIn := by
  cases h with
  | @group _ _ _ _ _ _ c1 h1 => rw [sem_caps_groupfree h1 hg]

theorem sem_group_rep_inv {i : Nat} {p : Char → Bool} {lo : Nat}
    {hi : Option Nat} {g : Bool} {prev : Option Char} {xs after : List Char}
    {capsIn capsOut : Caps}
    (h : Sem (.group i (.rep p lo hi g)) prev xs after capsIn capsOut) :
    lo ≤ xs.length ∧ (∀ c ∈ xs, p c = true) ∧
      capsOut = (i, String.mk xs) :: capsIn := by
  cases h with
  | @group _ _ _ _ _ _ c1 h1 =>
    obtain ⟨hlo, hall, hc⟩ := sem_rep_inv h1
    rw [hc]
    exact ⟨hlo, hall, rfl⟩

theorem sem_lookahead_inv {r : RE} {prev : Option Char} {xs after : List Char}
    {capsIn capsOut : Caps} (h : Sem (.lookahead r) prev xs after capsIn capsOut)
    (hg : groupFree r = true) :
    xs = [] ∧ capsOut = capsIn := by
  cases h with
  | lookahead h1 => exact ⟨rfl, sem_caps_groupfree h1 hg⟩

theorem sem_reSeq_append_split {es2 : List RE} :
    ∀ (es1 : List RE) {prev : Option Char} {xs after : List Char}
      {capsIn capsOut : Caps},
      Sem (reSeq (es1 ++ es2)) prev xs after capsIn capsOut →
      ∃ a y cmid, xs = a ++ y ∧
        Sem (reSeq es2) (lastPrev prev a) y after cmid capsOut := by
  intro es1
  induction es1 with
  | nil =>
    intro prev xs after capsIn capsOut h
    exact ⟨[], xs, capsIn, rfl, h⟩
  | cons e es1 ih =>
    intro prev xs after capsIn capsOut h
    obtain ⟨x, y, c1, hxy, he, hrest⟩ := sem_reSeq_cons h
    obtain ⟨a, y2, cmid, hay, hsem2⟩ := ih hrest
    refine ⟨x ++ a, y2, cmid, ?_, ?_⟩
    · rw [hxy, hay, List.append_assoc]
    · rw [lastPrev_append]
      exact hsem2

theorem sem_caps_groupsAbove {n : Nat} {r : RE} {prev : Option Char}
    {xs after : List Char} {capsIn capsOut : Caps}
    (h : Sem r prev xs after capsIn capsOut) :
    groupsAbove n r = true →
    ∃ ext, capsOut = ext ++ capsIn ∧ ∀ e ∈ ext, n ≤ e.1 := by
  induction h with
  | epsilon => intro _; exact ⟨[], rfl, by intro e he; cases he⟩
  | cls _ => intro _; exact ⟨[], rfl, by intro e he; cases he⟩
  | str => intro _; exact ⟨[], rfl, by intro e he; cases he⟩
  | cat h1 h2 ih1 ih2 =>
    intro hg
    unfold groupsAbove at hg
    rw [Bool.and_eq_true] at hg
    obtain ⟨e1, he1, hi1⟩ := ih1 hg.1
    obtain ⟨e2, he2, hi2⟩ := ih2 hg.2
    refine ⟨e2 ++ e1, ?_, ?_⟩
    · rw [he2, he1, List.append_assoc]
    · intro e he
      rcases List.mem_append.mp he with h' | h'
      · exact hi2 e h'
      · exact hi1 e h'
  | altL h ih =>
    intro hg
    unfold groupsAbove at hg
    rw [Bool.and_eq_true] at hg
    exact ih hg.1
  | altR h ih =>
    intro hg
    unfold groupsAbove at hg
    rw [Bool.and_eq_true] at hg
    exact ih hg.2
  | rep _ _ _ => intro _; exact ⟨[], rfl, by intro e he; cases he⟩
  | @group i r prev xs after caps caps1 h ih =>
    intro hg
    unfold groupsAbove at hg
    rw [Bool.and_eq_true] at hg
    obtain ⟨ext, hext, hidx⟩ := ih hg.2
    refine ⟨(i, String.mk xs) :: ext, by rw [hext]; rfl, ?_⟩
    intro e he
    rcases List.mem_cons.mp he with rfl | h'
    · exact Nat.le_of_ble_eq_true (by simpa using hg.1)
    · exact hidx e h'
  | lookahead h ih =>
    intro hg
    unfold groupsAbove at hg
    exact ih hg
  | wordB _ => intro _; exact ⟨[], rfl, by intro e he; cases he⟩
  | eos => intro _; exact ⟨[], rfl, by intro e he; cases he⟩

theorem capGet_append_skip (ext rest : Caps) (i : Nat)
    (h : ∀ e ∈ ext, e.1 ≠ i) : capGet (ext ++ rest) i = capGet rest i := by
  induction ext with
  | nil => rfl
  | cons e es ih =>
    obtain ⟨j, s⟩ := e
    have hj : j ≠ i := h (j, s) (List.mem_cons_self _ _)
    simp only [List.cons_append, capGet, if_neg hj]
    exact ih (fun e he => h e (List.mem_cons_of_mem _ he))

/-- Inversion of a successful anchored `LOG_PATTERN` match: the line splits
around the quoted `"METHOD path"` field, immediately followed by the
status-code digit run and then the response-size digit run (whitespace
separated, in that order), and the method/path/status/size groups captured
exactly those runs. -/
theorem logpattern_inv (input : List Char) (prev : Option Char) (caps : Caps)
    (h : reMatch LOG_PATTERN input prev [] (fun _ _ cs => some cs) = some caps) :
    ∃ pre m sp q sp1 st sp2 sz suf,
      input = pre ++ ['"'] ++ m ++ sp ++ q ++ ['"'] ++ sp1 ++ st ++ sp2 ++ sz ++ suf ∧
      1 ≤ m.length ∧ (∀ c ∈ m, isUpperC c = true) ∧
      1 ≤ sp.length ∧ (∀ c ∈ sp, isSpaceC c = true) ∧
      1 ≤ q.length ∧ (∀ c ∈ q, notQuoteC c = true) ∧
      1 ≤ sp1.length ∧ (∀ c ∈ sp1, isSpaceC c = true) ∧
      1 ≤ st.length ∧ (∀ c ∈ st, isDigitC c = true) ∧
      1 ≤ sp2.length ∧ (∀ c ∈ sp2, isSpaceC c = true) ∧
      1 ≤ sz.length ∧ (∀ c ∈ sz, isDigitC c = true) ∧
      capGet caps 9 = some (String.mk m) ∧
      capGet caps 10 = some (String.mk q) ∧
      capGet caps 11 = some (String.mk st) ∧
      capGet caps 12 = some (String.mk sz) := by
  obtain ⟨xs, after, caps1, hin, hsem, hk⟩ :=
    reMatch_sound LOG_PATTERN input prev [] _ caps h
  have hcapstop : caps1 = caps := by simpa using hk
  rw [hcapstop] at hsem
  clear hcapstop hk h
  have h0 : Sem (reSeq ([.str ['<'], .group 0 (plusC isDigitC), .str ['>'],
      .group 1 isoTimestampRE,
      plusC isSpaceC, .group 2 (plusC isNonSpaceC),
      plusC isSpaceC, .group 3 (plusC isNonSpaceC),
      .str ['['], .group 4 (plusC isDigitC), .str [']', ':'],
      plusC isSpaceC, .group 5 (plusC isNonSpaceC),
      plusC isSpaceC, .str ['"'], .group 6 (starC notQuoteC), .str ['"'],
      plusC isSpaceC, .str ['"'], .group 7 (starC notQuoteC), .str ['"'],
      plusC isSpaceC, .group 8 (plusLazy notQuoteC),
      .lookahead (reSeq [plusC isSpaceC, .str ['"']]),
      plusC isSpaceC]
      ++ [.str ['"'], .group 9 (plusC isUpperC),
      plusC isSpaceC, .group 10 (plusC notQuoteC), .str ['"'],
      plusC isSpaceC, .group 11 (plusC isDigitC),
      plusC isSpaceC, .group 12 (plusC isDigitC),
      plusC isSpaceC, .str ['"'], .group 13 (starC notQuoteC), .str ['"'],
      plusC isSpaceC, .str ['"'], .group 14 (starC notQuoteC), .str ['"'],
      plusC isSpaceC, .group 15 (plusC isNonSpaceC)])) prev xs after [] caps := hsem
  obtain ⟨pre, y0, cmid, hxy0, hsem26⟩ := sem_reSeq_append_split _ h0
  obtain ⟨x26, y26, c26, hxy26, he26, h26⟩ := sem_reSeq_cons hsem26
  subst hxy26
  obtain ⟨hx26, hcs26⟩ := sem_str_inv he26
  subst hx26
  subst hcs26
  obtain ⟨x27, y27, c27, hxy27, he27, h27⟩ := sem_reSeq_cons h26
  subst hxy27
  obtain ⟨hlo27, hall27, hcs27⟩ := sem_group_rep_inv he27
  subst hcs27
  obtain ⟨x28, y28, c28, hxy28, he28, h28⟩ := sem_reSeq_cons h27
  subst hxy28
  obtain ⟨hlo28, hall28, hcs28⟩ := sem_rep_inv he28
  subst hcs28
  obtain ⟨x29, y29, c29, hxy29, he29, h29⟩ := sem_reSeq_cons h28
  subst hxy29
  obtain ⟨hlo29, hall29, hcs29⟩ := sem_group_rep_inv he29
  subst hcs29
  obtain ⟨x30, y30, c30, hxy30, he30, h30⟩ := sem_reSeq_cons h29
  subst hxy30
  obtain ⟨hx30, hcs30⟩ := sem_str_inv he30
  subst hx30
  subst hcs30
  obtain ⟨x31, y31, c31, hxy31, he31, h31⟩ := sem_reSeq_cons h30
  subst hxy31
  obtain ⟨hlo31, hall31, hcs31⟩ := sem_rep_inv he31
  subst hcs31
  obtain ⟨x32, y32, c32, hxy32, he32, h32⟩ := sem_reSeq_cons h31
  subst hxy32
  obtain ⟨hlo32, hall32, hcs32⟩ := sem_group_rep_inv he32
  subst hcs32
  obtain ⟨x33, y33, c33, hxy33, he33, h33⟩ := sem_reSeq_cons h32
  subst hxy33
  obtain ⟨hlo33, hall33, hcs33⟩ := sem_rep_inv he33
  subst hcs33
  obtain ⟨x34, y34, c34, hxy34, he34, h34⟩ := sem_reSeq_cons h33
  subst hxy34
  obtain ⟨hlo34, hall34, hcs34⟩ := sem_group_rep_inv he34
  subst hcs34
  obtain ⟨ext, hext, hidx⟩ := @sem_caps_groupsAbove 13 _ _ _ _ _ _ h34 (by decide)
  have hskip : ∀ i, i < 13 → capGet caps i
      = capGet ((12, String.mk x34) :: (11, String.mk x32) ::
          (10, String.mk x29) :: (9, String.mk x27) :: c26) i := by
    intro i hi
    rw [hext]
    exact capGet_append_skip _ _ i (fun e he => by have := hidx e he; omega)
  refine ⟨pre, x27, x28, x29, x31, x32, x33, x34, y34 ++ after,
    ?_, hlo27, hall27, hlo28, hall28, hlo29, hall29, hlo31, hall31,
    hlo32, hall32, hlo33, hall33, hlo34, hall34, ?_, ?_, ?_, ?_⟩
  · rw [hin, hxy0]
    simp only [List.append_assoc, List.singleton_append, List.cons_append,
      List.nil_append]
  · rw [hskip 9 (by omega)]; simp [capGet]
  · rw [hskip 10 (by omega)]; simp [capGet]
  · rw [hskip 11 (by omega)]; simp [capGet]
  · rw [hskip 12 (by omega)]; simp [capGet]

/-! ## Lemmas about the dict model -/

theorem assocGet_setKey (e : Entry) (k : String) (v : Value) (k' : String) :
    assocGet (setKey e k v) k' = if k = k' then some v else assocGet e k' := by
  induction e with
  | nil => simp [setKey, assocSet, assocGet]
  | cons hd tl ih =>
    obtain ⟨k₀, v₀⟩ := hd
    simp only [setKey, assocSet] at *
    by_cases h₀ : k₀ = k
    · subst h₀
      by_cases h' : k₀ = k' <;> simp [assocGet, h']
    · rw [if_neg h₀]
      by_cases h' : k₀ = k'
      · subst h'
        have hk : k ≠ k₀ := fun h => h₀ h.symm
        simp [assocGet, if_neg hk]
      · simp [assocGet, h', ih]

theorem assocGet_setKey_same (e : Entry) (k : String) (v : Value) :
    assocGet (setKey e k v) k = some v := by
  rw [assocGet_setKey, if_pos rfl]

theorem assocGet_setKey_ne (e : Entry) {k k' : String} (h : k' ≠ k) (v : Value) :
    assocGet (setKey e k v) k' = assocGet e k' := by
  rw [assocGet_setKey, if_neg (fun h' => h h'.symm)]

/-- `setKey` on a key the dict already has does not change the key list. -/
theorem setKey_keys_of_mem (e : Entry) (k : String) (v : Value)
    (h : assocGet e k ≠ none) :
    (setKey e k v).map Prod.fst = e.map Prod.fst := by
  induction e with
  | nil => exact absurd rfl h
  | cons hd tl ih =>
    obtain ⟨k₀, v₀⟩ := hd
    simp only [setKey, assocSet]
    by_cases h₀ : k₀ = k
    · subst h₀; simp
    · simp only [if_neg h₀, List.map_cons]
      simp only [assocGet, if_neg h₀] at h
      exact congrArg (List.cons k₀) (ih h)

/-! Stability of the record-building steps on keys they do not write. -/

theorem stTimestamp_get (caps : Caps) (r : Entry) {k : String}
    (h : k ≠ "timestamp") :
    assocGet (stTimestamp caps r) k = assocGet r k := by
  unfold stTimestamp
  split
  · split
    · exact assocGet_setKey_ne r h _
    · exact assocGet_setKey_ne r h _
  · rfl

theorem stPath_get (caps : Caps) (r : Entry) {k : String}
    (h1 : k ≠ "path") (h2 : k ≠ "query_string") (h3 : k ≠ "query_params") :
    assocGet (stPath caps r) k = assocGet r k := by
  unfold stPath
  split
  · simp only [assocGet_setKey_ne _ h3, assocGet_setKey_ne _ h2,
      assocGet_setKey_ne _ h1]
  · rfl

theorem fbTimestamp_get (line : List Char) (r : Entry) {k : String}
    (h : k ≠ "timestamp") :
    assocGet (fbTimestamp line r) k = assocGet r k := by
  unfold fbTimestamp
  split
  · split
    · split
      · exact assocGet_setKey_ne r h _
      · rfl
    · rfl
  · rfl

theorem fbPriority_get (line : List Char) (r : Entry) {k : String}
    (h : k ≠ "priority") :
    assocGet (fbPriority line r) k = assocGet r k := by
  unfold fbPriority
  split
  · exact assocGet_setKey_ne r h _
  · rfl

theorem fbIp_get (line : List Char) (r : Entry) {k : String}
    (h : k ≠ "ip_address") :
    assocGet (fbIp line r) k = assocGet r k := by
  unfold fbIp
  split
  · exact assocGet_setKey_ne r h _
  · rfl

theorem fbHttp_get (line : List Char) (r : Entry) {k : String}
    (h1 : k ≠ "http_method") (h2 : k ≠ "path") (h3 : k ≠ "query_string")
    (h4 : k ≠ "query_params") :
    assocGet (fbHttp line r) k = assocGet r k := by
  unfold fbHttp
  split
  · simp only [assocGet_setKey_ne _ h4, assocGet_setKey_ne _ h3,
      assocGet_setKey_ne _ h2, assocGet_setKey_ne _ h1]
  · rfl

theorem fbStatus_get (line : List Char) (r : Entry) {k : String}
    (h : k ≠ "status_code") :
    assocGet (fbStatus line r) k = assocGet r k := by
  unfold fbStatus
  split
  · exact assocGet_setKey_ne r h _
  · rfl

theorem fbSize_get (line : List Char) (r : Entry) {k : String}
    (h : k ≠ "response_size") :
    assocGet (fbSize line r) k = assocGet r k := by
  unfold fbSize
  split
  · exact assocGet_setKey_ne r h _
  · rfl

theorem fbUA_get (line : List Char) (r : Entry) {k : String}
    (h : k ≠ "user_agent") :
    assocGet (fbUA line r) k = assocGet r k := by
  unfold fbUA
  split
  · exact assocGet_setKey_ne r h _
  · rfl

theorem fbCache_get (line : List Char) (r : Entry) {k : String}
    (h : k ≠ "cache_status") :
    assocGet (fbCache line r) k = assocGet r k := by
  unfold fbCache
  split
  · exact assocGet_setKey_ne r h _
  · rfl

theorem fbServer_get (line : List Char) (r : Entry) {k : String}
    (h : k ≠ "cache_server") :
    assocGet (fbServer line r) k = assocGet r k := by
  unfold fbServer
  split
  · exact assocGet_setKey_ne r h _
  · rfl

theorem fbProcess_get (line : List Char) (r : Entry) {k : String}
    (h1 : k ≠ "process") (h2 : k ≠ "pid") :
    assocGet (fbProcess line r) k = assocGet r k := by
  unfold fbProcess
  split
  · simp only [assocGet_setKey_ne _ h2, assocGet_setKey_ne _ h1]
  · rfl

/-- No fallback extractor ever writes `raw_line`. -/
theorem fallbackEntry_raw_line (line : List Char) (r : Entry) :
    assocGet (fallbackEntry line r) "raw_line" = assocGet r "raw_line" := by
  unfold fallbackEntry
  rw [fbProcess_get _ _ (by decide) (by decide), fbServer_get _ _ (by decide),
    fbCache_get _ _ (by decide), fbUA_get _ _ (by decide), fbSize_get _ _ (by decide),
    fbStatus_get _ _ (by decide),
    fbHttp_get _ _ (by decide) (by decide) (by decide) (by decide),
    fbIp_get _ _ (by decide), fbPriority_get _ _ (by decide),
    fbTimestamp_get _ _ (by decide)]

/-- After the fallback timestamp extractor, no later extractor touches the
`timestamp` key. -/
theorem fallbackEntry_timestamp (line : List Char) (r : Entry) :
    assocGet (fallbackEntry line r) "timestamp"
      = assocGet (fbTimestamp line r) "timestamp" := by
  unfold fallbackEntry
  rw [fbProcess_get _ _ (by decide) (by decide), fbServer_get _ _ (by decide),
    fbCache_get _ _ (by decide), fbUA_get _ _ (by decide), fbSize_get _ _ (by decide),
    fbStatus_get _ _ (by decide),
    fbHttp_get _ _ (by decide) (by decide) (by decide) (by decide),
    fbIp_get _ _ (by decide), fbPriority_get _ _ (by decide)]

/-- The strict path never overwrites `raw_line`. -/
theorem strictEntry_raw_line (line : List Char) (caps : Caps) :
    assocGet (strictEntry line caps) "raw_line"
      = some (Value.str (String.mk line)) := by
  simp only [strictEntry]
  simp only [assocGet_setKey_ne _ (by decide : ("raw_line" : String) ≠ "cache_status"),
    assocGet_setKey_ne _ (by decide : ("raw_line" : String) ≠ "user_agent"),
    assocGet_setKey_ne _ (by decide : ("raw_line" : String) ≠ "referrer"),
    assocGet_setKey_ne _ (by decide : ("raw_line" : String) ≠ "response_size"),
    assocGet_setKey_ne _ (by decide : ("raw_line" : String) ≠ "status_code"),
    assocGet_setKey_ne _ (by decide : ("raw_line" : String) ≠ "http_method"),
    stPath_get _ _ (by decide : ("raw_line" : String) ≠ "path")
      (by decide : ("raw_line" : String) ≠ "query_string")
      (by decide : ("raw_line" : String) ≠ "query_params"),
    assocGet_setKey_ne _ (by decide : ("raw_line" : String) ≠ "date_string"),
    assocGet_setKey_ne _ (by decide : ("raw_line" : String) ≠ "referrer2"),
    assocGet_setKey_ne _ (by decide : ("raw_line" : String) ≠ "referrer1"),
    assocGet_setKey_ne _ (by decide : ("raw_line" : String) ≠ "ip_address"),
    assocGet_setKey_ne _ (by decide : ("raw_line" : String) ≠ "pid"),
    assocGet_setKey_ne _ (by decide : ("raw_line" : String) ≠ "process"),
    assocGet_setKey_ne _ (by decide : ("raw_line" : String) ≠ "cache_server"),
    stTimestamp_get _ _ (by decide : ("raw_line" : String) ≠ "timestamp"),
    assocGet_setKey_ne _ (by decide : ("raw_line" : String) ≠ "priority")]
  rfl

/-! Unfolding `parse_log_line` by which branch was taken. -/

theorem parse_log_line_strict {line : String} {caps : Caps}
    (h : reMatchTop LOG_PATTERN (pyStripList line.toList) = some caps) :
    parse_log_line line = some (strictEntry (pyStripList line.toList) caps) := by
  have hne : pyStripList line.toList ≠ [] := by
    intro h0
    rw [h0] at h
    have hnone : reMatchTop LOG_PATTERN ([] : List Char) = none := by decide
    rw [hnone] at h
    exact Option.noConfusion h
  simp only [parse_log_line, if_neg hne, h]

theorem parse_log_line_fallback {line : String}
    (h : reMatchTop LOG_PATTERN (pyStripList line.toList) = none)
    (hne : pyStripList line.toList ≠ []) :
    parse_log_line line
      = some (fallbackEntry (pyStripList line.toList)
          [("raw_line", Value.str (String.mk (pyStripList line.toList)))]) := by
  simp only [parse_log_line, if_neg hne, h]

/-! ## The claims -/


set_option maxRecDepth 100000 in
/-- **C1** (counterexample).  The claim asserts
`query_params = {"q": "test", "page": "2"}` for the sample line, but the
strict grammar's path group `([^"]+)` captures everything up to the closing
quote — including the ` HTTP/1.1` protocol token — so the `page` parameter's
value is `"2 HTTP/1.1"`, not `"2"`. -/
theorem c1_counterexample :
    ((parse_log_line sampleLine).bind (fun e =>
        match assocGet e "query_params" with
        | some (Value.qparams ps) => assocGet ps "page"
        | _ => none))
      = some "2 HTTP/1.1" ∧
    ("2 HTTP/1.1" : String) ≠ "2" := by
  exact ⟨by decide, by decide⟩

set_option maxRecDepth 100000 in
/-- **C1** (amended).  On the sample line, `parse_log_line` returns a record
with priority 134, timestamp `2024-01-15T10:30:00`, cache_server
`cache-server01`, process `fastly-log`, pid 1234, ip_address `203.0.113.5`,
http_method `GET`, path `/api/search`,
query_params `{"q": "test", "page": "2 HTTP/1.1"}`, status_code 200,
response_size 15234, user_agent `Mozilla/5.0` and cache_status `hit`. -/
theorem c1_amended :
    (parse_log_line sampleLine).map (fun e => assocGet e "priority")
      = some (some (.int 134)) ∧
    (parse_log_line sampleLine).map (fun e => assocGet e "timestamp")
      = some (some (.str "2024-01-15T10:30:00")) ∧
    (parse_log_line sampleLine).map (fun e => assocGet e "cache_server")
      = some (some (.str "cache-server01")) ∧
    (parse_log_line sampleLine).map (fun e => assocGet e "process")
      = some (some (.str "fastly-log")) ∧
    (parse_log_line sampleLine).map (fun e => assocGet e "pid")
      = some (some (.int 1234)) ∧
    (parse_log_line sampleLine).map (fun e => assocGet e "ip_address")
      = some (some (.str "203.0.113.5")) ∧
    (parse_log_line sampleLine).map (fun e => assocGet e "http_method")
      = some (some (.str "GET")) ∧
    (parse_log_line sampleLine).map (fun e => assocGet e "path")
      = some (some (.str "/api/search")) ∧
    (parse_log_line sampleLine).map (fun e => assocGet e "query_params")
      = some (some (.qparams [("q", "test"), ("page", "2 HTTP/1.1")])) ∧
    (parse_log_line sampleLine).map (fun e => assocGet e "status_code")
      = some (some (.int 200)) ∧
    (parse_log_line sampleLine).map (fun e => assocGet e "response_size")
      = some (some (.int 15234)) ∧
    (parse_log_line sampleLine).map (fun e => assocGet e "user_agent")
      = some (some (.str "Mozilla/5.0")) ∧
    (parse_log_line sampleLine).map (fun e => assocGet e "cache_status")
      = some (some (.str "hit")) := by
  refine ⟨by decide, by decide, by decide, by decide, by decide, by decide,
    by decide, by decide, by decide, by decide, by decide, by decide, by decide⟩

/-- **C3**.  The numeric conversions never raise: a failing `int` conversion
yields the explicit absent value (`none`), never zero; a missing value stays
absent; `safe_int` is total, always returning either absence or an integer;
and on the line `<abc> hello world`, whose priority marker is non-numeric,
the parsed record carries no `priority` value. -/
theorem c3_numeric_never_raise :
    (∀ s : String, pyInt? s = none → safe_int (some s) = none) ∧
    safe_int none = none ∧
    (∀ v : Option String, safe_int v = none ∨ ∃ n : Int, safe_int v = some n) ∧
    (parse_log_line "<abc> hello world").map (fun e => assocGet e "priority")
      = some none := by
  refine ⟨?_, rfl, ?_, by decide⟩
  · intro s h
    by_cases hs : s = ""
    · simp [safe_int, hs]
    · simp [safe_int, hs, h]
  · intro v
    cases h : safe_int v with
    | none => exact Or.inl rfl
    | some n => exact Or.inr ⟨n, rfl⟩

/-- Witness for **C3** at the concrete non-numeric text `abc`. -/
theorem c3_witness : safe_int (some "abc") = none :=
  c3_numeric_never_raise.1 "abc" (by decide)

/-- **C4**.  A blank or whitespace-only line yields no record; every other
line yields a record whose `raw_line` is the trimmed input. -/
theorem c4_raw_line_and_blank (line : String) :
    (pyStripList line.toList = [] → parse_log_line line = none) ∧
    (pyStripList line.toList ≠ [] →
      (parse_log_line line).map (fun e => assocGet e "raw_line")
        = some (some (Value.str (String.mk (pyStripList line.toList))))) := by
  constructor
  · intro h
    simp only [parse_log_line, if_pos h]
  · intro h
    cases hm : reMatchTop LOG_PATTERN (pyStripList line.toList) with
    | some caps =>
      rw [parse_log_line_strict hm]
      simp [strictEntry_raw_line]
    | none =>
      rw [parse_log_line_fallback hm h]
      simp [fallbackEntry_raw_line, assocGet]

/-- Witness for **C4**: the empty line and the line `" x "`. -/
theorem c4_witness :
    parse_log_line "" = none ∧
    (parse_log_line " x ").map (fun e => assocGet e "raw_line")
      = some (some (Value.str (String.mk (pyStripList (" x ").toList)))) :=
  ⟨(c4_raw_line_and_blank "").1 (by decide),
   (c4_raw_line_and_blank " x ").2 (by decide)⟩

/-- **C5**.  Path/query splitting, on the spec's own instances: a `?` splits
path from query string, `&` separates segments, the first `=` splits key
from value, segments without `=` contribute no key, the last duplicate key
wins, and a path without `?` has a null query string and empty params.
(`splitFullPath` is the splitting logic shared verbatim by the strict path,
lines 92–102, and the fallback HTTP branch, lines 135–148.) -/
theorem c5_query_splitting :
    splitFullPath "path?a=1&b=2" = ("path", some "a=1&b=2", [("a", "1"), ("b", "2")]) ∧
    splitFullPath "path" = ("path", none, []) ∧
    splitFullPath "path?a=1&a=2" = ("path", some "a=1&a=2", [("a", "2")]) ∧
    splitFullPath "path?x&a=1" = ("path", some "x&a=1", [("a", "1")]) := by
  refine ⟨by decide, by decide, by decide, by decide⟩

/-- **C6** (counterexample).  `badTsLine` misses the strict grammar and
contains the substring `2024-13-01T00:00:00Z`, which matches the ISO-8601
*pattern* `\d{4}-\d{2}-\d{2}T\d{2}:\d{2}:\d{2}Z` — the fallback timestamp
search finds it — yet the parsed record has **no** timestamp value at all,
because `strptime` rejects month 13 and the handler does `pass`. -/
theorem c6_counterexample :
    reMatchTop LOG_PATTERN (pyStripList badTsLine.toList) = none ∧
    (reSearch TS_RE (pyStripList badTsLine.toList)).map (fun caps => capGet caps 0)
      = some (some "2024-13-01T00:00:00Z") ∧
    (parse_log_line badTsLine).map (fun e => assocGet e "timestamp") = some none := by
  refine ⟨by decide, by decide, by decide⟩

/-- **C6** (amended).  If the strict grammar fails and the fallback search
finds an ISO-8601-shaped substring, then: when that substring is a valid
calendar timestamp the record's `timestamp` equals its canonical ISO-8601
form, and when it is not, the `timestamp` key is absent. -/
theorem c6_amended_fallback_timestamp (line : String) (caps : Caps) (ts : String)
    (hm : reMatchTop LOG_PATTERN (pyStripList line.toList) = none)
    (hs : reSearch TS_RE (pyStripList line.toList) = some caps)
    (hg : capGet caps 0 = some ts) :
    (∀ canon, strptimeIsoZ ts = some canon →
      (parse_log_line line).map (fun e => assocGet e "timestamp")
        = some (some (Value.str canon))) ∧
    (strptimeIsoZ ts = none →
      (parse_log_line line).map (fun e => assocGet e "timestamp") = some none) := by
  have hne : pyStripList line.toList ≠ [] := by
    intro h0
    rw [h0] at hs
    have hsearch : reSearch TS_RE ([] : List Char) = none := by decide
    rw [hsearch] at hs
    exact Option.noConfusion hs
  rw [parse_log_line_fallback hm hne]
  constructor
  · intro canon hcanon
    simp only [Option.map_some']
    rw [fallbackEntry_timestamp]
    simp only [fbTimestamp, hs, hg, hcanon]
    rw [assocGet_setKey_same]
  · intro hnone
    simp only [Option.map_some']
    rw [fallbackEntry_timestamp]
    simp only [fbTimestamp, hs, hg, hnone]
    simp [assocGet]

/-- Witness for **C6** at `goodTsLine`. -/
theorem c6_witness :
    (parse_log_line goodTsLine).map (fun e => assocGet e "timestamp")
      = some (some (Value.str "2024-01-15T10:30:00")) :=
  (c6_amended_fallback_timestamp goodTsLine [(0, "2024-01-15T10:30:00Z")]
      "2024-01-15T10:30:00Z" (by decide) (by decide) (by decide)).1
    "2024-01-15T10:30:00" (by decide)

/-! ### C8: the file-processing loop -/

theorem processLines_eq (fp : String) (n : Nat) (ls : List String) :
    processLines fp n ls
      = (List.enumFrom n ls).filterMap
          (fun p => (parse_log_line p.2).map (stampEntry fp p.1)) := by
  induction ls generalizing n with
  | nil => rfl
  | cons l ls ih =>
    simp only [processLines, List.enumFrom, List.filterMap_cons]
    cases h : parse_log_line l with
    | none => simp [h, ih]
    | some e => simp [h, ih]

theorem mem_enumFrom_getD (xs : List String) (n : Nat) (p : Nat × String)
    (h : p ∈ List.enumFrom n xs) :
    n ≤ p.1 ∧ p.1 < n + xs.length ∧ xs.getD (p.1 - n) "" = p.2 := by
  induction xs generalizing n with
  | nil => cases h
  | cons a as ih =>
    simp only [List.enumFrom] at h
    rcases List.mem_cons.mp h with h | h
    · subst h
      refine ⟨Nat.le_refl _, by simp only [List.length_cons]; omega, ?_⟩
      simp
    · obtain ⟨h1, h2, h3⟩ := ih (n + 1) h
      refine ⟨Nat.le_of_succ_le h1, by simp only [List.length_cons]; omega, ?_⟩
      have hd : p.1 - n = (p.1 - (n + 1)) + 1 := by omega
      rw [hd]
      simpa using h3

/-- **C8**.  `process_log_file` is the 1-based enumeration of the file's
lines, filtered through `parse_log_line` and stamped: lines whose parse is
`NONE` are skipped while the numbering still advances, and every emitted
record carries `source_file` equal to the given path and `line_number` equal
to the line's 1-based position. -/
theorem c8_process_file (fp : String) (lines : List String) :
    process_log_file fp lines
      = (List.enumFrom 1 lines).filterMap
          (fun p => (parse_log_line p.2).map (stampEntry fp p.1)) ∧
    (∀ e ∈ process_log_file fp lines,
      assocGet e "source_file" = some (Value.str fp) ∧
      ∃ n e₀, 1 ≤ n ∧ n ≤ lines.length ∧
        parse_log_line (lines.getD (n - 1) "") = some e₀ ∧
        e = stampEntry fp n e₀ ∧
        assocGet e "line_number" = some (Value.int n)) := by
  refine ⟨processLines_eq fp 1 lines, ?_⟩
  intro e he
  rw [process_log_file, processLines_eq] at he
  obtain ⟨⟨n, l⟩, hmem, hf⟩ := List.mem_filterMap.mp he
  obtain ⟨h1, h2, h3⟩ := mem_enumFrom_getD lines 1 (n, l) hmem
  cases hp : parse_log_line l with
  | none => rw [hp] at hf; exact Option.noConfusion hf
  | some e₀ =>
    rw [hp] at hf
    have he₀ : e = stampEntry fp n e₀ := (Option.some.injEq _ _).mp hf |>.symm
    subst he₀
    constructor
    · rw [stampEntry, assocGet_setKey_ne _ (by decide), assocGet_setKey_same]
    · refine ⟨n, e₀, h1, by omega, ?_, rfl, ?_⟩
      · rw [h3]; exact hp
      · rw [stampEntry, assocGet_setKey_same]

/-! ### C7 / C10: the row-oriented sink -/


theorem flattenStep_ok_inv (e : Entry) (flat : Entry)
    (h : flattenStep e = .ok flat) :
    assocGet e "query_params" ≠ none ∧ flat.map Prod.fst = e.map Prod.fst := by
  unfold flattenStep at h
  cases hq : assocGet e "query_params" with
  | none => rw [hq] at h; exact Except.noConfusion h
  | some v =>
    rw [hq] at h
    have hflat : flat = setKey e "query_params" (.str (jsonDumpsValue v)) :=
      ((Except.ok.injEq _ _).mp h).symm
    subst hflat
    exact ⟨by simp [hq], setKey_keys_of_mem e _ _ (by simp [hq])⟩

theorem writerow_ok_inv (fns : List String) (e : Entry) (row : List String)
    (h : writerow fns e = .ok row) :
    (∀ k ∈ e.map Prod.fst, k ∈ fns) ∧ row.length = fns.length := by
  unfold writerow at h
  by_cases hc : (e.map Prod.fst).all (fun k => fns.contains k) = true
  · rw [if_pos hc] at h
    have hrow : row = fns.map (fun k =>
        match assocGet e k with
        | some v => csvCell v
        | none => "") := ((Except.ok.injEq _ _).mp h).symm
    refine ⟨?_, by rw [hrow, List.length_map]⟩
    intro k hk
    have := List.all_eq_true.mp hc k hk
    exact List.elem_iff.mp this
  · rw [if_neg hc] at h
    exact Except.noConfusion h

/-- If the streaming CSV loop succeeds, every record it consumed had a
`query_params` key and all its keys lay inside the fixed `fns` column set,
and every emitted row has exactly one cell per column. -/
theorem saveCsvGo_ok_inv (fns : List String) (entries : List Entry)
    (rows : List (List String))
    (h : saveCsvGo (some fns) entries = .ok rows) :
    (∀ e ∈ entries, assocGet e "query_params" ≠ none ∧
      ∀ k ∈ e.map Prod.fst, k ∈ fns) ∧
    (∀ r ∈ rows, r.length = fns.length) := by
  induction entries generalizing rows with
  | nil =>
    have hrows : rows = [] := ((Except.ok.injEq _ _).mp h).symm
    subst hrows
    exact ⟨fun e he => absurd he (List.not_mem_nil e), fun r hr => absurd hr (List.not_mem_nil r)⟩
  | cons a as ih =>
    simp only [saveCsvGo] at h
    cases hf : flattenStep a with
    | error m => rw [hf] at h; exact Except.noConfusion h
    | ok flat =>
      rw [hf] at h
      simp only [Option.getD] at h
      cases hw : writerow fns flat with
      | error m => rw [hw] at h; exact Except.noConfusion h
      | ok row =>
        rw [hw] at h
        cases hr : saveCsvGo (some fns) as with
        | error m => rw [hr] at h; exact Except.noConfusion h
        | ok rows' =>
          rw [hr] at h
          have hrows : rows = row :: rows' := ((Except.ok.injEq _ _).mp h).symm
          subst hrows
          obtain ⟨hq, hkeys⟩ := flattenStep_ok_inv a flat hf
          obtain ⟨hsub, hlen⟩ := writerow_ok_inv fns flat row hw
          obtain ⟨ih1, ih2⟩ := ih rows' hr
          refine ⟨?_, ?_⟩
          · intro e he
            rcases List.mem_cons.mp he with rfl | he'
            · exact ⟨hq, fun k hk => hsub k (by rw [hkeys]; exact hk)⟩
            · exact ih1 e he'
          · intro r hr'
            rcases List.mem_cons.mp hr' with rfl | hr''
            · exact hlen
            · exact ih2 r hr''

/-- If the whole sink succeeds on a nonempty stream, the column set is the
first (flattened) record's key list and the above invariant holds for the
tail (as well as the head). -/
theorem save_csv_ok_inv (e1 : Entry) (rest : List Entry)
    (rows : List (List String))
    (h : save_csv_streaming (e1 :: rest) = .ok rows) :
    ∃ flat1, flattenStep e1 = .ok flat1 ∧
      (∀ e ∈ rest, assocGet e "query_params" ≠ none ∧
        ∀ k ∈ e.map Prod.fst, k ∈ flat1.map Prod.fst) ∧
      (∀ r ∈ rows, r.length = (flat1.map Prod.fst).length) := by
  unfold save_csv_streaming at h
  simp only [saveCsvGo] at h
  cases hf : flattenStep e1 with
  | error m => rw [hf] at h; exact Except.noConfusion h
  | ok flat1 =>
    rw [hf] at h
    simp only [Option.getD] at h
    cases hw : writerow (flat1.map Prod.fst) flat1 with
    | error m => rw [hw] at h; exact Except.noConfusion h
    | ok row =>
      rw [hw] at h
      cases hr : saveCsvGo (some (flat1.map Prod.fst)) rest with
      | error m => rw [hr] at h; exact Except.noConfusion h
      | ok rows' =>
        rw [hr] at h
        have hrows : rows = row :: rows' := ((Except.ok.injEq _ _).mp h).symm
        subst hrows
        obtain ⟨hinv, hlens⟩ := saveCsvGo_ok_inv _ rest rows' hr
        obtain ⟨_, hlen1⟩ := writerow_ok_inv _ flat1 row hw
        refine ⟨flat1, rfl, hinv, ?_⟩
        intro r hr'
        rcases List.mem_cons.mp hr' with rfl | hr''
        · exact hlen1
        · exact hlens r hr''


/-- **C7** (counterexample).  A heterogeneous stream whose second record has
a key absent from the first record makes `save_csv_streaming` raise
(`csv.DictWriter`'s default is `extrasaction='raise'`); the extra key is
*not* silently dropped. -/
theorem c7_counterexample :
    save_csv_streaming [csvRecA, csvRecB]
      = .error "ValueError: dict contains fields not in fieldnames" := by
  rfl

/-- **C7** (amended).  The column set is fixed from the first record's keys:
on success every row has exactly one cell per key of the first record; and a
later record with a key absent from the first record's keys makes the write
raise `ValueError` instead of silently dropping the key. -/
theorem c7_amended :
    (∀ (e1 : Entry) (rest : List Entry) (rows : List (List String)),
      assocGet e1 "query_params" ≠ none →
      save_csv_streaming (e1 :: rest) = .ok rows →
      ∀ r ∈ rows, r.length = e1.length) ∧
    (∀ (e1 : Entry) (rest : List Entry),
      assocGet e1 "query_params" ≠ none →
      (∃ e ∈ rest, ∃ k, k ∈ e.map Prod.fst ∧ k ∉ e1.map Prod.fst) →
      exceptOk (save_csv_streaming (e1 :: rest)) = false) := by
  constructor
  · intro e1 rest rows hqp hok r hr
    obtain ⟨flat1, hf, _, hlens⟩ := save_csv_ok_inv e1 rest rows hok
    obtain ⟨_, hkeys⟩ := flattenStep_ok_inv e1 flat1 hf
    have := hlens r hr
    rw [hkeys, List.length_map] at this
    exact this
  · intro e1 rest hqp ⟨e, he, k, hk, hk1⟩
    cases hok : save_csv_streaming (e1 :: rest) with
    | error m => rfl
    | ok rows =>
      obtain ⟨flat1, hf, hinv, _⟩ := save_csv_ok_inv e1 rest rows hok
      obtain ⟨_, hkeys⟩ := flattenStep_ok_inv e1 flat1 hf
      have := (hinv e he).2 k hk
      rw [hkeys] at this
      exact absurd this hk1

/-- Witness for **C7** on the concrete two-record stream. -/
theorem c7_witness :
    exceptOk (save_csv_streaming [csvRecA, csvRecB]) = false :=
  c7_amended.2 csvRecA [csvRecB] (by decide)
    ⟨csvRecB, by decide, "b", by decide, by decide⟩

theorem saveCsvGo_ok_qp (fns? : Option (List String)) (entries : List Entry)
    (rows : List (List String)) (h : saveCsvGo fns? entries = .ok rows) :
    ∀ e ∈ entries, assocGet e "query_params" ≠ none := by
  induction entries generalizing fns? rows with
  | nil => intro e he; exact absurd he (List.not_mem_nil e)
  | cons a as ih =>
    intro e he
    simp only [saveCsvGo] at h
    cases hf : flattenStep a with
    | error m => rw [hf] at h; exact Except.noConfusion h
    | ok flat =>
      rw [hf] at h
      dsimp only at h
      cases hw : writerow (fns?.getD (flat.map Prod.fst)) flat with
      | error m => rw [hw] at h; exact Except.noConfusion h
      | ok row =>
        rw [hw] at h
        cases hr : saveCsvGo (some (fns?.getD (flat.map Prod.fst))) as with
        | error m => rw [hr] at h; exact Except.noConfusion h
        | ok rows' =>
          rcases List.mem_cons.mp he with rfl | he'
          · exact (flattenStep_ok_inv e flat hf).1
          · exact ih _ _ hr e he'


/-- **C10**.  The row sink reads `query_params` of every record before
writing it: a record without that key makes the flattening raise `KeyError`,
so any stream containing such a record cannot be written successfully — and
`parse_log_line` itself produces such records for non-blank lines that miss
the strict grammar and contain no quoted `"METHOD path"` token. -/
theorem c10_csv_not_total :
    (∀ e : Entry, assocGet e "query_params" = none →
      flattenStep e = .error "KeyError: query_params") ∧
    (∀ entries : List Entry,
      (∃ e ∈ entries, assocGet e "query_params" = none) →
      exceptOk (save_csv_streaming entries) = false) ∧
    (parse_log_line "just some text").map (fun e => assocGet e "query_params")
      = some none := by
  refine ⟨?_, ?_, by decide⟩
  · intro e h
    simp [flattenStep, h]
  · intro entries ⟨e, he, hqp⟩
    cases hok : save_csv_streaming entries with
    | error m => rfl
    | ok rows =>
      exact absurd hqp (by
        simpa using saveCsvGo_ok_qp none entries rows hok e he)

/-- Witness for **C10** on a concrete one-record stream whose record — the
parse of `"just some text"` — has no `query_params` key. -/
theorem c10_witness :
    flattenStep [("raw_line", Value.str "just some text")]
      = .error "KeyError: query_params" ∧
    exceptOk (save_csv_streaming [[("raw_line", Value.str "just some text")]])
      = false :=
  ⟨c10_csv_not_total.1 [("raw_line", Value.str "just some text")] (by decide),
   c10_csv_not_total.2.1 [[("raw_line", Value.str "just some text")]]
     ⟨[("raw_line", Value.str "just some text")], by decide, by decide⟩⟩

/-- **C2**.  When the strict grammar matches the (trimmed) line from its
start, `parse_log_line` returns exactly the strict-path record built from
the capture groups — the fallback extractors never run — and the line
decomposes around the quoted `"METHOD path"` field so that the status-code
capture is the first whitespace-delimited digit run after that field and the
response-size capture the second, in that order. -/
theorem c2_strict_no_fallback (line : String) (caps : Caps)
    (hm : reMatchTop LOG_PATTERN (pyStripList line.toList) = some caps) :
    parse_log_line line = some (strictEntry (pyStripList line.toList) caps) ∧
    ∃ pre m sp q sp1 st sp2 sz suf,
      pyStripList line.toList
        = pre ++ ['"'] ++ m ++ sp ++ q ++ ['"'] ++ sp1 ++ st ++ sp2 ++ sz ++ suf ∧
      1 ≤ m.length ∧ (∀ c ∈ m, isUpperC c = true) ∧
      1 ≤ sp.length ∧ (∀ c ∈ sp, isSpaceC c = true) ∧
      1 ≤ q.length ∧ (∀ c ∈ q, notQuoteC c = true) ∧
      1 ≤ sp1.length ∧ (∀ c ∈ sp1, isSpaceC c = true) ∧
      1 ≤ st.length ∧ (∀ c ∈ st, isDigitC c = true) ∧
      1 ≤ sp2.length ∧ (∀ c ∈ sp2, isSpaceC c = true) ∧
      1 ≤ sz.length ∧ (∀ c ∈ sz, isDigitC c = true) ∧
      capGet caps 9 = some (String.mk m) ∧
      capGet caps 10 = some (String.mk q) ∧
      capGet caps 11 = some (String.mk st) ∧
      capGet caps 12 = some (String.mk sz) :=
  ⟨parse_log_line_strict hm, logpattern_inv (pyStripList line.toList) none caps hm⟩

set_option maxRecDepth 400000 in
/-- Witness for **C2** at the sample line. -/
theorem c2_witness :
    parse_log_line sampleLine
      = some (strictEntry (pyStripList sampleLine.toList) sampleCaps) ∧
    ∃ pre m sp q sp1 st sp2 sz suf,
      pyStripList sampleLine.toList
        = pre ++ ['"'] ++ m ++ sp ++ q ++ ['"'] ++ sp1 ++ st ++ sp2 ++ sz ++ suf ∧
      1 ≤ m.length ∧ (∀ c ∈ m, isUpperC c = true) ∧
      1 ≤ sp.length ∧ (∀ c ∈ sp, isSpaceC c = true) ∧
      1 ≤ q.length ∧ (∀ c ∈ q, notQuoteC c = true) ∧
      1 ≤ sp1.length ∧ (∀ c ∈ sp1, isSpaceC c = true) ∧
      1 ≤ st.length ∧ (∀ c ∈ st, isDigitC c = true) ∧
      1 ≤ sp2.length ∧ (∀ c ∈ sp2, isSpaceC c = true) ∧
      1 ≤ sz.length ∧ (∀ c ∈ sz, isDigitC c = true) ∧
      capGet sampleCaps 9 = some (String.mk m) ∧
      capGet sampleCaps 10 = some (String.mk q) ∧
      capGet sampleCaps 11 = some (String.mk st) ∧
      capGet sampleCaps 12 = some (String.mk sz) :=
  c2_strict_no_fallback sampleLine sampleCaps (by decide)

/-- Witness for **C8** on a two-line file whose first line is blank. -/
theorem c8_witness :
    assocGet (stampEntry "f.log" 2 [("raw_line", Value.str "<abc> hi")])
        "source_file" = some (Value.str "f.log") ∧
    ∃ n e₀, 1 ≤ n ∧ n ≤ (["", "<abc> hi"] : List String).length ∧
      parse_log_line ((["", "<abc> hi"] : List String).getD (n - 1) "") = some e₀ ∧
      stampEntry "f.log" 2 [("raw_line", Value.str "<abc> hi")]
        = stampEntry "f.log" n e₀ ∧
      assocGet (stampEntry "f.log" 2 [("raw_line", Value.str "<abc> hi")])
        "line_number" = some (Value.int n) :=
  (c8_process_file "f.log" ["", "<abc> hi"]).2
    (stampEntry "f.log" 2 [("raw_line", Value.str "<abc> hi")]) (by decide)

end FastlyLog
